import Mathlib

/-!
# openwrt-rpc: the LuCI JSON-RPC client (`rpc/rpc.go`)

A shallow embedding of the Go package `rpc`: the client state, the URL
builder, the transport caller, the RPC invoker with its re-login path, `login`
and `New`, followed by the properties of the session and call protocol.

Conventions of the embedding
* A Go `string` is a Lean `String`; a response body is the text of its bytes.
* A Go `error` is a value of `GoError`; `nil` is `none`.  The two sentinel
  errors are constructors of their own, so that `err == ErrHttpUnauthorized`
  (pointer identity in Go) is plain equality here.
* The client is mutated through a pointer in Go; here every operation takes the
  client and returns the client it leaves behind.
* The HTTP transport is outside the package: it is a parameter, a function from
  the requests sent so far and the current request to what `net/http` gives
  back.  Every invocation of `call` is appended to a log of requests.
-/

namespace OpenwrtRpc

/-! ## Constants and types (rpc.go lines 17-61) -/

/-- The constant `rpcID`. -/
def rpcID : Int := 99

/-- The constant `rpcURI`. -/
def rpcURI : String := "/cgi-bin/luci/rpc/"

/-- The variable `defaultTimeout`. -/
def defaultTimeout : Int := 15

/-- Go `error` values that occur in the package. -/
inductive GoError where
  /-- The package variable `ErrHttpUnauthorized`. -/
  | ErrHttpUnauthorized
  /-- The package variable `ErrHttpForbidden`. -/
  | ErrHttpForbidden
  /-- A fresh `errors.New(msg)`. -/
  | errorsNew (msg : String)
  /-- An error returned by `net/http` or `ioutil.ReadAll`. -/
  | transport (msg : String)
  /-- An error returned by `json.Unmarshal`. -/
  | unmarshal (msg : String)
  deriving DecidableEq, Repr

/-- The method `Error()` of an error value. -/
def GoError.Error : GoError → String
  | .ErrHttpUnauthorized => "http: Unauthorized"
  | .ErrHttpForbidden => "http: Forbidden"
  | .errorsNew msg => msg
  | .transport msg => msg
  | .unmarshal msg => msg

/-- The struct `Auth`. -/
structure Auth where
  Username : String
  Password : String
  Timeout : Int
  deriving DecidableEq, Repr

/-- The struct `RpcServer`. -/
structure RpcServer where
  Hostname : String
  Port : Int
  SSL : Bool
  deriving DecidableEq, Repr

/-- The struct `Client`, without its `httpClient` (the transport is a parameter
of the operations). -/
structure Client where
  rpcServer : RpcServer
  auth : Auth
  token : String
  id : Int
  deriving DecidableEq, Repr

/-- The struct `Payload`; `Params` is `none` for a nil slice. -/
structure Payload where
  ID : Int
  Method : String
  Params : Option (List String)
  deriving DecidableEq, Repr

/-! ## Formatting -/

/-- The verb `%d` of `fmt.Sprintf` on an `int`. -/
def fmtD (n : Int) : String :=
  if n < 0 then "-" ++ Nat.repr n.natAbs else Nat.repr n.toNat

/-! ## `Client.url` (rpc.go lines 127-144) -/

/-- The method `Client.url`. -/
def Client.url (c : Client) (uri : String) : String :=
  let proto := "http://"
  let port := ""
  let proto := if c.rpcServer.SSL == true then "https://" else proto
  let port :=
    if c.rpcServer.Port != 0 && c.rpcServer.Port != 443 then ":" ++ fmtD c.rpcServer.Port
    else port
  let url := proto ++ c.rpcServer.Hostname ++ port ++ rpcURI ++ uri
  let url := if c.token != "" then url ++ "?auth=" ++ c.token else url
  url

/-! ## `encoding/json`

The package decodes every response with `json.Unmarshal` and re-encodes a
non-string result with `json.Marshal`.  Both belong to Go's standard library;
what follows is a model of the part of them the package exercises: the JSON
grammar, the decoding of a document into the struct `Response`, the value an
`interface{}` receives, and the compact encoding of such a value.

Numbers.  An `interface{}` receives a JSON number as a `float64`.  No
floating-point arithmetic is modelled: a `float64` is named by the text the
encoder prints for it.  For an integer literal of magnitude at most `2^53` the
`float64` is exact and that text is the literal itself; for every other literal
the text is given by a parameter `fl` (`none` when `strconv.ParseFloat` reports
a range error).

Versions.  The encoder is the one of Go 1.22 and later (`\b` and `\f` have
short escapes; earlier versions write `\u0008` and `\u000c`), the decoder
refuses documents nested deeper than 10000 (Go 1.15 and later).  Bodies are
texts: a body that is not valid UTF-8 is outside the model. -/

mutual
/-- A JSON value: the syntax tree of a document and, once stored (`store`), the
Go value an `interface{}` holds (`nil`, `bool`, `float64`, `string`,
`[]interface{}`, `map[string]interface{}`). -/
inductive Value where
  | null
  | bool (b : Bool)
  | number (text : String)
  | string (s : String)
  | array (xs : Values)
  | object (ms : Members)
/-- The elements of an array. -/
inductive Values where
  | nil
  | cons (v : Value) (vs : Values)
/-- The members of an object. -/
inductive Members where
  | nil
  | cons (k : String) (v : Value) (ms : Members)
end

/-- The struct `Response`; `Error` is `none` for a nil pointer. -/
structure Response where
  ID : Int
  Result : Value
  Error : Option String

/-! ### Encoding -/

/-- A hexadecimal digit of the encoder (`"0123456789abcdef"`). -/
def hexDigit (n : Nat) : Char :=
  if n < 10 then Char.ofNat (48 + n) else Char.ofNat (87 + n)

/-- Whether the encoder writes the character as it is (HTML escaping is on in
`json.Marshal`). -/
def plainChar (c : Char) : Bool :=
  0x20 ≤ c.toNat && c != '"' && c != '\\' && c != '<' && c != '>' && c != '&'
    && c.toNat != 0x2028 && c.toNat != 0x2029

/-- The encoding of one character of a string. -/
def encodeChar (c : Char) : List Char :=
  if plainChar c then [c]
  else if c = '"' then ['\\', '"']
  else if c = '\\' then ['\\', '\\']
  else if c.toNat = 8 then ['\\', 'b']
  else if c.toNat = 12 then ['\\', 'f']
  else if c = '\n' then ['\\', 'n']
  else if c = '\r' then ['\\', 'r']
  else if c = '\t' then ['\\', 't']
  else ['\\', 'u', hexDigit (c.toNat / 4096 % 16), hexDigit (c.toNat / 256 % 16),
    hexDigit (c.toNat / 16 % 16), hexDigit (c.toNat % 16)]

/-- The encoding of a string: quoted, with the encoder's escapes. -/
def encodeString (s : List Char) : List Char :=
  '"' :: (s.flatMap encodeChar ++ ['"'])

mutual
/-- The compact encoding of a value (`json.Marshal` on an `interface{}`). -/
def encodeValue : Value → List Char
  | .null => ['n', 'u', 'l', 'l']
  | .bool b => if b then ['t', 'r', 'u', 'e'] else ['f', 'a', 'l', 's', 'e']
  | .number text => text.data
  | .string s => encodeString s.data
  | .array .nil => ['[', ']']
  | .array (.cons v vs) => '[' :: (encodeValue v ++ encodeElems vs)
  | .object .nil => ['{', '}']
  | .object (.cons k v ms) =>
    '{' :: (encodeString k.data ++ ':' :: (encodeValue v ++ encodeMembers ms))
/-- The elements after the first, each behind a comma, and the closing bracket. -/
def encodeElems : Values → List Char
  | .nil => [']']
  | .cons v vs => ',' :: (encodeValue v ++ encodeElems vs)
/-- The members after the first, each behind a comma, and the closing brace. -/
def encodeMembers : Members → List Char
  | .nil => ['}']
  | .cons k v ms => ',' :: (encodeString k.data ++ ':' :: (encodeValue v ++ encodeMembers ms))
end

/-- The function `json.Marshal` on the value of an `interface{}` that
`json.Unmarshal` filled; it returns no error on such a value. -/
def jsonMarshal (v : Value) : String := String.mk (encodeValue v)

/-- The elements of a `[]string`, each behind a comma, and the closing bracket. -/
def encodeStrings : List String → List Char
  | [] => [']']
  | s :: ss => ',' :: (encodeString s.data ++ encodeStrings ss)

/-- The function `json.Marshal` on a `Payload`; it returns no error. -/
def marshalPayload (p : Payload) : String :=
  "\x7b\"id\":" ++ fmtD p.ID ++ ",\"method\":" ++ String.mk (encodeString p.Method.data)
    ++ ",\"params\":"
    ++ (match p.Params with
        | none => "null"
        | some [] => "[]"
        | some (s :: ss) => String.mk ('[' :: (encodeString s.data ++ encodeStrings ss)))
    ++ "\x7d"

/-! ### The grammar -/

/-- The white space of JSON. -/
def isSpace (c : Char) : Bool := c == ' ' || c == '\t' || c == '\r' || c == '\n'

/-- Drop leading white space. -/
def skipSpace : List Char → List Char
  | [] => []
  | c :: cs => if isSpace c then skipSpace cs else c :: cs

/-- The value of a hexadecimal digit. -/
def hexVal (c : Char) : Option Nat :=
  if '0' ≤ c ∧ c ≤ '9' then some (c.toNat - 48)
  else if 'a' ≤ c ∧ c ≤ 'f' then some (c.toNat - 87)
  else if 'A' ≤ c ∧ c ≤ 'F' then some (c.toNat - 55)
  else none

/-- The value of four hexadecimal digits. -/
def hex4 (a b c d : Char) : Option Nat := do
  let a ← hexVal a
  let b ← hexVal b
  let c ← hexVal c
  let d ← hexVal d
  pure (((a * 16 + b) * 16 + c) * 16 + d)

/-- The character a simple escape stands for. -/
def unescape (e : Char) : Option Char :=
  if e = '"' then some '"'
  else if e = '\\' then some '\\'
  else if e = '/' then some '/'
  else if e = 'b' then some (Char.ofNat 8)
  else if e = 'f' then some (Char.ofNat 12)
  else if e = 'n' then some '\n'
  else if e = 'r' then some '\r'
  else if e = 't' then some '\t'
  else none

/-- Put a character in front of the string of a scan result. -/
def consChar (c : Char) (r : Option (List Char × List Char)) : Option (List Char × List Char) :=
  r.map fun p => (c :: p.1, p.2)

/-- A high surrogate is pending: it stands for U+FFFD unless the escape of a
low surrogate comes next. -/
def flush (pending : Option Nat) (r : Option (List Char × List Char)) :
    Option (List Char × List Char) :=
  match pending with
  | none => r
  | some _ => consChar (Char.ofNat 0xFFFD) r

/-- The characters of a string literal after its opening quote, unquoted, and
the input after its closing quote.  `pending` is the high surrogate whose `\u`
escape was read last: with the escape of a low surrogate right behind it, it is
the character of the pair; any other surrogate is U+FFFD. -/
def scanString (pending : Option Nat) : List Char → Option (List Char × List Char)
  | [] => none
  | c :: rest =>
    if c = '"' then flush pending (some ([], rest))
    else if c = '\\' then
      match rest with
      | [] => none
      | e :: rest1 =>
        if e = 'u' then
          match rest1 with
          | h1 :: h2 :: h3 :: h4 :: rest2 =>
            match hex4 h1 h2 h3 h4 with
            | none => none
            | some u =>
              match pending with
              | some hi =>
                if 0xDC00 ≤ u ∧ u < 0xE000 then
                  consChar (Char.ofNat (0x10000 + (hi - 0xD800) * 1024 + (u - 0xDC00)))
                    (scanString none rest2)
                else if 0xD800 ≤ u ∧ u < 0xDC00 then
                  consChar (Char.ofNat 0xFFFD) (scanString (some u) rest2)
                else consChar (Char.ofNat 0xFFFD) (consChar (Char.ofNat u) (scanString none rest2))
              | none =>
                if 0xD800 ≤ u ∧ u < 0xDC00 then scanString (some u) rest2
                else if 0xDC00 ≤ u ∧ u < 0xE000 then
                  consChar (Char.ofNat 0xFFFD) (scanString none rest2)
                else consChar (Char.ofNat u) (scanString none rest2)
          | _ => none
        else
          match unescape e with
          | none => none
          | some x => flush pending (consChar x (scanString none rest1))
    else if c.toNat < 0x20 then none
    else flush pending (consChar c (scanString none rest))

/-- The leading decimal digits of the input, and what follows them. -/
def takeDigits : List Char → List Char × List Char
  | [] => ([], [])
  | c :: cs =>
    if c.isDigit then ((takeDigits cs).1.cons c, (takeDigits cs).2) else ([], c :: cs)

/-- The integer part of a number literal: `0`, or a non-zero digit and more
digits. -/
def scanInt : List Char → Option (List Char × List Char)
  | [] => none
  | c :: cs =>
    if c = '0' then some (['0'], cs)
    else if c.isDigit then some (c :: (takeDigits cs).1, (takeDigits cs).2)
    else none

/-- The optional fraction of a number literal: a point and at least one digit. -/
def scanFrac : List Char → Option (List Char × List Char)
  | '.' :: cs =>
    match takeDigits cs with
    | ([], _) => none
    | (ds, rest) => some ('.' :: ds, rest)
  | cs => some ([], cs)

/-- The optional exponent of a number literal: `e` or `E`, an optional sign and
at least one digit. -/
def scanExp : List Char → Option (List Char × List Char)
  | [] => some ([], [])
  | c :: cs =>
    if c = 'e' ∨ c = 'E' then
      match cs with
      | [] => none
      | s :: cs1 =>
        if s = '+' ∨ s = '-' then
          match takeDigits cs1 with
          | ([], _) => none
          | (ds, rest) => some (c :: s :: ds, rest)
        else
          match takeDigits cs with
          | ([], _) => none
          | (ds, rest) => some (c :: ds, rest)
    else some ([], c :: cs)

/-- A number literal at the head of the input: its text and what follows it. -/
def scanNumber (cs : List Char) : Option (List Char × List Char) := do
  let (sign, cs0) := match cs with
    | '-' :: r => (['-'], r)
    | r => ([], r)
  let (int, cs1) ← scanInt cs0
  let (frac, cs2) ← scanFrac cs1
  let (exp, cs3) ← scanExp cs2
  pure (sign ++ int ++ frac ++ exp, cs3)

/-- Drop the given characters from the head of the input. -/
def expect : List Char → List Char → Option (List Char)
  | [], cs => some cs
  | _ :: _, [] => none
  | x :: xs, c :: cs => if x = c then expect xs cs else none

/-- The deepest nesting of arrays and objects the decoder accepts
(`maxNestingDepth`). -/
def maxNestingDepth : Nat := 10000

mutual
/-- A value at the head of the input (no leading white space), read as a tree,
and the input after it.  `fuel` bounds the calls, `depth` is the nesting still
allowed. -/
def parseValue : Nat → Nat → List Char → Option (Value × List Char)
  | 0, _, _ => none
  | _, _, [] => none
  | fuel + 1, depth, c :: cs =>
    if c = 'n' then (expect ['u', 'l', 'l'] cs).map fun r => (Value.null, r)
    else if c = 't' then (expect ['r', 'u', 'e'] cs).map fun r => (Value.bool true, r)
    else if c = 'f' then (expect ['a', 'l', 's', 'e'] cs).map fun r => (Value.bool false, r)
    else if c = '"' then (scanString none cs).map fun p => (Value.string (String.mk p.1), p.2)
    else if c = '[' then
      match depth with
      | 0 => none
      | d + 1 =>
        match skipSpace cs with
        | [] => none
        | x :: rest =>
          if x = ']' then some (Value.array Values.nil, rest)
          else (parseElems fuel d (x :: rest)).map fun p => (Value.array p.1, p.2)
    else if c = '\x7b' then
      match depth with
      | 0 => none
      | d + 1 =>
        match skipSpace cs with
        | [] => none
        | x :: rest =>
          if x = '\x7d' then some (Value.object Members.nil, rest)
          else (parseMembers fuel d (x :: rest)).map fun p => (Value.object p.1, p.2)
    else (scanNumber (c :: cs)).map fun p => (Value.number (String.mk p.1), p.2)
/-- The elements of an array from the head of one (no leading white space) to
the closing bracket, and the input after it. -/
def parseElems : Nat → Nat → List Char → Option (Values × List Char)
  | 0, _, _ => none
  | fuel + 1, depth, cs =>
    match parseValue fuel depth cs with
    | none => none
    | some (v, rest) =>
      match skipSpace rest with
      | [] => none
      | x :: rest1 =>
        if x = ',' then
          (parseElems fuel depth (skipSpace rest1)).map fun p => (Values.cons v p.1, p.2)
        else if x = ']' then some (Values.cons v Values.nil, rest1)
        else none
/-- The members of an object from the key of one (no leading white space) to
the closing brace, in the order of the document, and the input after it. -/
def parseMembers : Nat → Nat → List Char → Option (Members × List Char)
  | 0, _, _ => none
  | _, _, [] => none
  | fuel + 1, depth, q :: cs =>
    if q = '"' then
      match scanString none cs with
      | none => none
      | some (k, rest) =>
        match skipSpace rest with
        | [] => none
        | x :: rest1 =>
          if x = ':' then
            match parseValue fuel depth (skipSpace rest1) with
            | none => none
            | some (v, rest2) =>
              match skipSpace rest2 with
              | [] => none
              | y :: rest3 =>
                if y = ',' then
                  (parseMembers fuel depth (skipSpace rest3)).map
                    fun p => (Members.cons (String.mk k) v p.1, p.2)
                else if y = '\x7d' then some (Members.cons (String.mk k) v Members.nil, rest3)
                else none
          else none
    else none
end

/-- A whole document: one value between optional white space (the check
`checkValid` and the tree of the value). -/
def parseDocument (data : List Char) : Option Value :=
  match parseValue (data.length + 1) maxNestingDepth (skipSpace data) with
  | none => none
  | some (v, rest) => if skipSpace rest = [] then some v else none

/-! ### Decoding -/

/-- The number the decimal digits stand for. -/
def digitsVal (ds : List Char) : Nat :=
  ds.foldl (fun n c => n * 10 + (c.toNat - 48)) 0

/-- An integer literal (no fraction, no exponent) as sign and digits. -/
def intLiteral (lit : List Char) : Option (Bool × List Char) :=
  match lit with
  | [] => none
  | c :: cs =>
    if c = '-' then (if cs ≠ [] ∧ cs.all Char.isDigit then some (true, cs) else none)
    else if (c :: cs).all Char.isDigit then some (false, c :: cs)
    else none

/-- The text the encoder prints for the `float64` of a number literal: the
literal itself for an integer of magnitude at most `2^53`, what `fl` says for
any other literal. -/
def float64Text (fl : String → Option String) (lit : List Char) : Option String :=
  match intLiteral lit with
  | some (_, ds) => if digitsVal ds ≤ 2 ^ 53 then some (String.mk lit) else fl (String.mk lit)
  | none => fl (String.mk lit)

/-- The function `strconv.ParseInt(lit, 10, 64)` on a number literal of JSON. -/
def parseInt64 (lit : List Char) : Option Int :=
  match intLiteral lit with
  | some (true, ds) => if digitsVal ds ≤ 2 ^ 63 then some (-(digitsVal ds : Int)) else none
  | some (false, ds) => if digitsVal ds < 2 ^ 63 then some (digitsVal ds : Int) else none
  | none => none

/-- The order of the keys of a map in the encoder: the order of Go strings
(lexicographic on the code points, which is the order of the UTF-8 bytes). -/
def keyLess : List Char → List Char → Bool
  | _, [] => false
  | [], _ :: _ => true
  | a :: as, b :: bs => a.toNat < b.toNat || (a.toNat == b.toNat && keyLess as bs)

/-- Add a member to a map in key order, unless the map has the key (the map
holds the members that come later in the document, and the last one wins). -/
def Members.put (k : String) (v : Value) : Members → Members
  | .nil => .cons k v .nil
  | .cons k1 v1 ms =>
    if keyLess k.data k1.data then .cons k v (.cons k1 v1 ms)
    else if k = k1 then .cons k1 v1 ms
    else .cons k1 v1 (Members.put k v ms)

mutual
/-- The Go value an `interface{}` receives for a tree: numbers become their
`float64`, the members of an object become a map (printed in key order).
`none` when a number is out of the range of `float64`. -/
def store (fl : String → Option String) : Value → Option Value
  | .null => some .null
  | .bool b => some (.bool b)
  | .number lit => (float64Text fl lit.data).map Value.number
  | .string s => some (.string s)
  | .array xs => (storeElems fl xs).map Value.array
  | .object ms => (storeMembers fl ms).map Value.object
/-- The elements of a stored array. -/
def storeElems (fl : String → Option String) : Values → Option Values
  | .nil => some .nil
  | .cons v vs =>
    match store fl v, storeElems fl vs with
    | some x, some xs => some (.cons x xs)
    | _, _ => none
/-- The map of a stored object. -/
def storeMembers (fl : String → Option String) : Members → Option Members
  | .nil => some .nil
  | .cons k v ms =>
    match store fl v, storeMembers fl ms with
    | some x, some m => some (Members.put k x m)
    | _, _ => none
end

/-- The case folding under which a key of the document names a field of a
struct. -/
def foldChar (c : Char) : Char :=
  if 'a' ≤ c ∧ c ≤ 'z' then Char.ofNat (c.toNat - 32)
  else if c.toNat = 0x17F then 'S'
  else if c.toNat = 0x212A then 'K'
  else c

/-- Whether a key of the document names the field with the given tag. -/
def namesField (tag : String) (key : String) : Bool :=
  tag.data.map foldChar == key.data.map foldChar

/-- Keep the first error of a decoding (`saveError`). -/
def saveError (saved : Option GoError) (e : GoError) : Option GoError :=
  match saved with
  | none => some e
  | some e0 => some e0

/-- Decode a value into the field `ID int`: a number literal that
`strconv.ParseInt` accepts sets it, `null` leaves it, anything else is a type
error.  The messages of the errors are indicative, not those of Go. -/
def decodeID (v : Value) (st : Response × Option GoError) : Response × Option GoError :=
  match v with
  | .null => st
  | .number lit =>
    match parseInt64 lit.data with
    | some n => ({ st.1 with ID := n }, st.2)
    | none => (st.1, saveError st.2 (.unmarshal "json: cannot unmarshal number into id"))
  | .bool _ => (st.1, saveError st.2 (.unmarshal "json: cannot unmarshal bool into id"))
  | .string _ => (st.1, saveError st.2 (.unmarshal "json: cannot unmarshal string into id"))
  | .array _ => (st.1, saveError st.2 (.unmarshal "json: cannot unmarshal array into id"))
  | .object _ => (st.1, saveError st.2 (.unmarshal "json: cannot unmarshal object into id"))

/-- Decode a value into the field `Result interface{}`. -/
def decodeResult (fl : String → Option String) (v : Value) (st : Response × Option GoError) :
    Response × Option GoError :=
  match store fl v with
  | some x => ({ st.1 with Result := x }, st.2)
  | none => (st.1, saveError st.2 (.unmarshal "json: cannot unmarshal number into result"))

/-- Decode a value into the field `Error *string`: `null` makes it nil, a
string makes it point to the string, anything else is a type error. -/
def decodeError (v : Value) (st : Response × Option GoError) : Response × Option GoError :=
  match v with
  | .null => ({ st.1 with Error := none }, st.2)
  | .string s => ({ st.1 with Error := some s }, st.2)
  | .number _ => (st.1, saveError st.2 (.unmarshal "json: cannot unmarshal number into error"))
  | .bool _ => (st.1, saveError st.2 (.unmarshal "json: cannot unmarshal bool into error"))
  | .array _ => (st.1, saveError st.2 (.unmarshal "json: cannot unmarshal array into error"))
  | .object _ => (st.1, saveError st.2 (.unmarshal "json: cannot unmarshal object into error"))

/-- Decode one member of the top-level object into the `Response`; a key that
names no field is skipped. -/
def decodeField (fl : String → Option String) (k : String) (v : Value)
    (st : Response × Option GoError) : Response × Option GoError :=
  if namesField "id" k then decodeID v st
  else if namesField "result" k then decodeResult fl v st
  else if namesField "error" k then decodeError v st
  else st

/-- Decode the members of the top-level object in the order of the document. -/
def decodeMembers (fl : String → Option String) :
    Members → Response × Option GoError → Response × Option GoError
  | .nil, st => st
  | .cons k v ms, st => decodeMembers fl ms (decodeField fl k v st)

/-- Decode the tree of a document into a zero `Response`. -/
def decodeResponse (fl : String → Option String) (v : Value) : Except GoError Response :=
  match v with
  | .null => .ok ⟨0, .null, none⟩
  | .object ms =>
    match decodeMembers fl ms (⟨0, .null, none⟩, none) with
    | (r, none) => .ok r
    | (_, some e) => .error e
  | _ => .error (.unmarshal "json: cannot unmarshal value into Go value of type rpc.Response")

/-- The call `json.Unmarshal(respBody, &response)` on a zero `response`. -/
def jsonUnmarshal (fl : String → Option String) (respBody : String) : Except GoError Response :=
  match parseDocument respBody.data with
  | none => .error (.unmarshal "json: syntax error")
  | some v => decodeResponse fl v

/-! ## The transport -/

/-- One invocation of `Client.call`: the URL and the body posted. -/
structure Request where
  url : String
  body : String
  deriving DecidableEq, Repr

/-- What `net/http` gives back for one request. -/
inductive RoundTrip where
  /-- The functions `http.NewRequest` or `httpClient.Do` returned an error. -/
  | failed (msg : String)
  /-- A response: its status code, the body read and the error of
  `ioutil.ReadAll`, if any. -/
  | response (StatusCode : Nat) (body : String) (readErr : Option String)
  deriving DecidableEq, Repr

/-- What the package does not decide: the reaction of the HTTP transport to a
request, given the requests sent before it, and the `float64` text of the
number literals that are not small integers (`float64Text`). -/
structure Env where
  http : List Request → Request → RoundTrip
  fl : String → Option String

/-- The result of running an operation: its return value (`none` when the
bound on nested re-logins was reached before it returned), the client it
leaves behind and the requests sent so far. -/
structure Run (α : Type) where
  value : Option α
  client : Client
  log : List Request

/-! ## `httpError` and `call` (rpc.go lines 94-125) -/

/-- The method `Client.httpError`. -/
def httpError (code : Nat) : GoError :=
  if code = 401 then .ErrHttpUnauthorized
  else if code = 403 then .ErrHttpForbidden
  else .errorsNew ("HTTP status code: " ++ fmtD code)

/-- The method `Client.call`: the body and error it returns. -/
def call (E : Env) (log : List Request) (url : String) (postBody : String) :
    String × Option GoError :=
  match E.http log ⟨url, postBody⟩ with
  | .failed msg => ("", some (.transport msg))
  | .response StatusCode respBody readErr =>
    if StatusCode > 226 then (respBody, some (httpError StatusCode))
    else (respBody, readErr.map GoError.transport)

/-! ## `rpc`, `login`, `New` and the wrappers (rpc.go lines 63-92, 146-219) -/

/-- The end of `Client.rpc` (lines 174-195): from the body and error of the last
`call` to the result. -/
def rpcResult (E : Env) (respBody : String) (err : Option GoError) : String × Option GoError :=
  match err with
  | some e => ("", some e)
  | none =>
    match jsonUnmarshal E.fl respBody with
    | .error e => ("", some e)
    | .ok response =>
      match response.Error with
      | some msg => ("", some (.errorsNew msg))
      | none =>
        match response.Result with
        | .string s => (s, none)
        | v => (jsonMarshal v, none)

/-- The method `Client.login`, over the `rpc` it calls. -/
def loginWith (rpc : Client → List Request → String → String → Option (List String) →
    Run (String × Option GoError)) (c : Client) (log : List Request) : Run (Option GoError) :=
  let r := rpc c log "auth" "login" (some [c.auth.Username, c.auth.Password])
  match r.value with
  | none => ⟨none, r.client, r.log⟩
  | some (_, some err) => ⟨some (some err), r.client, r.log⟩
  | some (token, none) => ⟨some none, { r.client with token := token }, r.log⟩

/-- The method `Client.rpc`.  `fuel` bounds the nesting of re-logins: the
re-login of line 170 runs `login`, hence `rpc`, with one less, and a run that
would nest deeper has no value.  In the retry the URL is the one of line 169,
computed from the client before `c.login()` runs; the error of that login is
dropped, as in the source. -/
def rpc (E : Env) : Nat → Client → List Request → String → String → Option (List String) →
    Run (String × Option GoError)
  | fuel, c, log, library, method, params =>
    if library ≠ "auth" ∧ c.token = "" then
      ⟨some ("", some (.errorsNew "RPC client is not authenticated")), c, log⟩
    else
      let data := marshalPayload ⟨c.id, method, params⟩
      let url := c.url library
      let r := call E log url data
      let log1 := log ++ [⟨url, data⟩]
      if r.2 = some .ErrHttpUnauthorized ∨ r.2 = some .ErrHttpForbidden then
        match fuel with
        | 0 => ⟨none, c, log1⟩
        | f + 1 =>
          let url := c.url library
          let l := loginWith (rpc E f) c log1
          match l.value with
          | none => ⟨none, l.client, l.log⟩
          | some _ =>
            let r := call E l.log url data
            ⟨some (rpcResult E r.1 r.2), l.client, l.log ++ [⟨url, data⟩]⟩
      else ⟨some (rpcResult E r.1 r.2), c, log1⟩

/-- The method `Client.login`. -/
def login (E : Env) (fuel : Nat) (c : Client) (log : List Request) : Run (Option GoError) :=
  loginWith (rpc E fuel) c log

/-- The function `New`: the client (`none` for nil) and the error. -/
def New (E : Env) (fuel : Nat) (rpcServer : RpcServer) (auth : Auth) (log : List Request) :
    Run (Option Client × Option GoError) :=
  let auth := if auth.Timeout = 0 then { auth with Timeout := defaultTimeout } else auth
  let client : Client := { rpcServer := rpcServer, auth := auth, token := "", id := rpcID }
  let l := login E fuel client log
  match l.value with
  | none => ⟨none, l.client, l.log⟩
  | some (some err) => ⟨some (none, some err), l.client, l.log⟩
  | some none => ⟨some (some l.client, none), l.client, l.log⟩

/-- The method `Client.SysRPC`. -/
def SysRPC (E : Env) (fuel : Nat) (c : Client) (log : List Request) (method : String)
    (params : Option (List String)) : Run (String × Option GoError) :=
  rpc E fuel c log "sys" method params

/-- The method `Client.UciRPC`. -/
def UciRPC (E : Env) (fuel : Nat) (c : Client) (log : List Request) (method : String)
    (params : Option (List String)) : Run (String × Option GoError) :=
  rpc E fuel c log "uci" method params

/-- The method `Client.FsRPC`. -/
def FsRPC (E : Env) (fuel : Nat) (c : Client) (log : List Request) (method : String)
    (params : Option (List String)) : Run (String × Option GoError) :=
  rpc E fuel c log "fs" method params

/-- The client `New` builds before it logs in (lines 65-72). -/
def newClient (rpcServer : RpcServer) (auth : Auth) : Client :=
  { rpcServer := rpcServer,
    auth := if auth.Timeout = 0 then { auth with Timeout := defaultTimeout } else auth,
    token := "", id := rpcID }

/-- The client `login` leaves when the login request is answered directly (with
anything but 401 or 403): the token is replaced when `rpc` returns no error,
and kept otherwise. -/
def afterLogin (c : Client) (r : String × Option GoError) : Client :=
  match r with
  | (token, none) => { c with token := token }
  | (_, some _) => c

/-! ## The normalisation of a result, in the words of the specification -/

/-- The text of a result: a string verbatim, any other value in its compact
JSON encoding. -/
def normalize : Value → String
  | .string s => s
  | v => jsonMarshal v

/-- The URL of a namespace, in the words of the specification. -/
def specURL (host : String) (port : Int) (ssl : Bool) (token : String) (namespace_ : String) :
    String :=
  (if ssl then "https://" else "http://") ++ host
    ++ (if port ≠ 0 ∧ port ≠ 443 then ":" ++ fmtD port else "")
    ++ "/cgi-bin/luci/rpc/" ++ namespace_
    ++ (if token ≠ "" then "?auth=" ++ token else "")

/-- The request `rpc` sends first: the URL of the namespace under the token
held, and the encoded payload. -/
def firstRequest (c : Client) (library method : String) (params : Option (List String)) :
    Request :=
  ⟨c.url library, marshalPayload ⟨c.id, method, params⟩⟩

/-! ## The servers of the test suite (rpc_test.go) -/

/-- The variable `authToken` of the tests. -/
def authToken : String := "2149750d18d5da63b123b3e68309956e"

/-- The endpoint of the test server (`httptest` picks the port). -/
def testServer : RpcServer := ⟨"127.0.0.1", 8080, false⟩

/-- The credentials of the tests. -/
def testAuth : Auth := ⟨"root", "openwrt", 0⟩

/-- The namespace a URL of the test server addresses: the path behind `rpcURI`,
without the query. -/
def endpointOf (url : String) : String :=
  String.mk ((url.data.drop ("http://127.0.0.1:8080" ++ rpcURI).length).takeWhile (· ≠ '?'))

/-- The body `fmt.Fprintf(w, "{"id":%d,"result":%s,"error":null}", rpcID, result)`
of the handlers. -/
def okBody (result : String) : String :=
  "\x7b\"id\":" ++ fmtD rpcID ++ ",\"result\":" ++ result ++ ",\"error\":null\x7d"

/-- The servers below send no number other than integers of magnitude at most
`2^53`: the `float64` text of any other literal is never asked for and is left
undefined. -/
def noFloats : String → Option String := fun _ => none

/-- The server of `setup`, with a handler for `sys` that gives the same answer
to every request; any other path is not found. -/
def mux (sys : RoundTrip) : Env where
  http := fun _ req =>
    if endpointOf req.url = "auth" then .response 200 (okBody ("\"" ++ authToken ++ "\"")) none
    else if endpointOf req.url = "sys" then sys
    else .response 404 "404 page not found\n" none
  fl := noFloats

/-- The client `setup` leaves in the variable `client`. -/
def testClient : Client := ⟨testServer, { testAuth with Timeout := defaultTimeout }, authToken, rpcID⟩

/-- The server whose auth endpoint answers every login with a null result. -/
def nullAuthServer : Env where
  http := fun _ _ => .response 200 (okBody "null") none
  fl := noFloats

/-- The server whose auth endpoint answers every login without a result. -/
def absentResultServer : Env where
  http := fun _ _ => .response 200 "\x7b\"id\":99,\"error\":null\x7d" none
  fl := noFloats

/-- The server that answers every request with the given status and no body. -/
def statusServer (status : Nat) : Env where
  http := fun _ _ => .response status "" none
  fl := noFloats

/-- A server on which the session of the token "old" has expired: the auth
endpoint hands out the token "new", `sys` answers a request that carries
`auth=new` and refuses any other with 403. -/
def expiredSessionServer : Env where
  http := fun _ req =>
    if endpointOf req.url = "auth" then .response 200 (okBody "\"new\"") none
    else if req.url = "http://127.0.0.1:8080/cgi-bin/luci/rpc/sys?auth=new" then
      .response 200 (okBody "\"OpenWrt\"") none
    else .response 403 "" none
  fl := noFloats

/-- The client of the tests, holding the expired token "old". -/
def expiredClient : Client := { testClient with token := "old" }

/-- A server whose auth endpoint answers the second request it receives with the
token "T" and every other request with 401. -/
def flakyAuthServer : Env where
  http := fun log _ =>
    if log.length = 1 then .response 200 (okBody "\"T\"") none else .response 401 "" none
  fl := noFloats

/-! ## Texts the encoder reproduces -/

/-- An integer literal of JSON of magnitude at most `2^53`, without its sign. -/
def plainDigits (ds : List Char) : Bool :=
  match ds with
  | [] => false
  | c :: cs => (if c = '0' then cs.isEmpty else c.isDigit && cs.all Char.isDigit)
      && decide (digitsVal (c :: cs) ≤ 2 ^ 53)

/-- A number the encoder prints as it was written: an integer literal of
magnitude at most `2^53`. -/
def plainNumber (lit : List Char) : Bool :=
  match lit with
  | [] => false
  | c :: cs => if c = '-' then plainDigits cs else plainDigits (c :: cs)

/-- Whether the key is smaller than the first key of the members. -/
def Members.startsAbove (k : String) : Members → Bool
  | .nil => true
  | .cons k1 _ _ => keyLess k.data k1.data

mutual
/-- A value whose text the decoder reads back as it stands: its numbers are
integer literals of magnitude at most `2^53`, its strings and keys hold only
characters the encoder does not escape. -/
def Value.verbatim : Value → Bool
  | .null => true
  | .bool _ => true
  | .number text => plainNumber text.data
  | .string s => s.data.all plainChar
  | .array xs => xs.verbatim
  | .object ms => ms.verbatim
/-- Every element is verbatim. -/
def Values.verbatim : Values → Bool
  | .nil => true
  | .cons v vs => v.verbatim && vs.verbatim
/-- Every key and every member is verbatim. -/
def Members.verbatim : Members → Bool
  | .nil => true
  | .cons k v ms => k.data.all plainChar && v.verbatim && ms.verbatim
end

mutual
/-- The keys of every object in the value increase strictly, in the order of
the encoder. -/
def Value.ordered : Value → Bool
  | .array xs => xs.ordered
  | .object ms => ms.ordered
  | _ => true
/-- Every element is ordered. -/
def Values.ordered : Values → Bool
  | .nil => true
  | .cons v vs => v.ordered && vs.ordered
/-- The keys increase strictly and every member is ordered. -/
def Members.ordered : Members → Bool
  | .nil => true
  | .cons k v ms => ms.startsAbove k && v.ordered && ms.ordered
end

/-- A value written the way the encoder writes it. -/
def Value.plain (v : Value) : Bool := v.verbatim && v.ordered

mutual
/-- The nesting of arrays and objects in a value. -/
def Value.depth : Value → Nat
  | .array xs => xs.depth + 1
  | .object ms => ms.depth + 1
  | _ => 0
/-- The deepest nesting among the elements. -/
def Values.depth : Values → Nat
  | .nil => 0
  | .cons v vs => max v.depth vs.depth
/-- The deepest nesting among the members. -/
def Members.depth : Members → Nat
  | .nil => 0
  | .cons _ v ms => max v.depth ms.depth
end

/-- What may follow a value inside a document: nothing, a comma or a closing
bracket or brace. -/
def closes (rest : List Char) : Bool :=
  match rest with
  | [] => true
  | c :: _ => c = ',' || c = ']' || c = '\x7d'

/-- The characters a plain value can start with. -/
def startsValue (c : Char) : Prop :=
  c = 'n' ∨ c = 't' ∨ c = 'f' ∨ c = '"' ∨ c = '[' ∨ c = '\x7b' ∨ c = '-' ∨ c.isDigit = true

/-- The text of a non-empty array behind its opening bracket. -/
def encodeArrayBody : Values → List Char
  | .nil => []
  | .cons v vs => encodeValue v ++ encodeElems vs

/-- The text of a non-empty object behind its opening brace. -/
def encodeObjectBody : Members → List Char
  | .nil => []
  | .cons k v ms => encodeString k.data ++ ':' :: (encodeValue v ++ encodeMembers ms)

/-- The tree of the body the handlers of the tests write around a result. -/
def envelope (v : Value) : Value :=
  .object (.cons "id" (.number "99") (.cons "result" v (.cons "error" .null .nil)))

/-! ## The results of the test suite, as trees -/

/-- The result of `TestResponseStrinArray`: `["lo","eth0","eth1","br-lan"]`. -/
def devicesResult : Value :=
  .array (.cons (.string "lo") (.cons (.string "eth0") (.cons (.string "eth1")
    (.cons (.string "br-lan") .nil))))

/-- The result of `TestResponseObjectArray`:
`[{"PID":"1","PPID":0},{"PID":"100","PPID":1}]`. -/
def processesResult : Value :=
  .array
    (.cons (.object (.cons "PID" (.string "1") (.cons "PPID" (.number "0") .nil)))
    (.cons (.object (.cons "PID" (.string "100") (.cons "PPID" (.number "1") .nil))) .nil))

/-- The result of `TestResponseObject`:
`{"b":true,"m":[1,2,3],"n":99,"s":"String"}`. -/
def objectResult : Value :=
  .object
    (.cons "b" (.bool true)
    (.cons "m" (.array (.cons (.number "1") (.cons (.number "2") (.cons (.number "3") .nil))))
    (.cons "n" (.number "99")
    (.cons "s" (.string "String") .nil))))

/-! ## The model on the data of the test suite -/

theorem url_of_testClient :
    testClient.url "sys"
      = "http://127.0.0.1:8080/cgi-bin/luci/rpc/sys?auth=2149750d18d5da63b123b3e68309956e" := by
  decide

theorem url_without_port_and_token :
    (Client.mk ⟨"192.168.1.1", 443, true⟩ ⟨"root", "pw", 15⟩ "" 99).url "auth"
      = "https://192.168.1.1/cgi-bin/luci/rpc/auth" := by
  decide

theorem marshalPayload_login :
    marshalPayload ⟨99, "login", some ["root", "openwrt"]⟩
      = "\x7b\"id\":99,\"method\":\"login\",\"params\":[\"root\",\"openwrt\"]\x7d" := by
  decide

theorem marshalPayload_nil_params :
    marshalPayload ⟨99, "hostname", none⟩
      = "\x7b\"id\":99,\"method\":\"hostname\",\"params\":null\x7d" := by
  decide

theorem jsonUnmarshal_objectResult (fl : String → Option String) :
    jsonUnmarshal fl
        (okBody "\x7b\"b\":true,\"m\":[1,2,3],\"n\":99,\"s\":\"String\"\x7d")
      = .ok ⟨99, objectResult, none⟩ := rfl

theorem jsonUnmarshal_escapes_and_spaces (fl : String → Option String) :
    (jsonUnmarshal fl
        " \x7b \"ID\" : 7 , \"result\" : [ \"\\u0041<\\n\" , \"\\ud83d\\ude00\" ] \x7d ").map
          (fun r => (r.ID, jsonMarshal r.Result, r.Error))
      = .ok (7, "[\"A\\u003c\\n\",\"😀\"]", none) := rfl

theorem jsonUnmarshal_rejects (fl : String → Option String) :
    (jsonUnmarshal fl "").toOption = none
      ∧ (jsonUnmarshal fl "[1,2]").toOption = none
      ∧ (jsonUnmarshal fl "\x7b\"id\":99.0\x7d").toOption = none
      ∧ (jsonUnmarshal fl "\x7b\"error\":5\x7d").toOption = none
      ∧ (jsonUnmarshal fl "\x7b\"result\":[1,]\x7d").toOption = none
      ∧ (jsonUnmarshal fl "\x7b\"result\":01\x7d").toOption = none := by
  refine ⟨rfl, rfl, rfl, rfl, rfl, rfl⟩

theorem jsonUnmarshal_float (fl : String → Option String) (text : String)
    (h : fl "1.50" = some text) :
    (jsonUnmarshal fl "\x7b\"result\":[1.50,2]\x7d").map (fun r => jsonMarshal r.Result)
      = .ok (String.mk ('[' :: (text.data ++ [',', '2', ']']))) := by
  have hstore : store fl (.array (.cons (.number "1.50") (.cons (.number "2") .nil)))
      = some (.array (.cons (.number text) (.cons (.number "2") .nil))) := by
    have h1 : float64Text fl "1.50".data = some text := h
    have h2 : float64Text fl "2".data = some "2" := rfl
    simp only [store, storeElems, h1, h2, Option.map]
  have hdec : jsonUnmarshal fl "\x7b\"result\":[1.50,2]\x7d"
      = .ok ⟨0, .array (.cons (.number text) (.cons (.number "2") .nil)), none⟩ := by
    show (match decodeResult fl (.array (.cons (.number "1.50") (.cons (.number "2") .nil)))
        (⟨0, .null, none⟩, none) with
      | (r, none) => Except.ok r
      | (_, some e) => Except.error e) = _
    unfold decodeResult
    rw [hstore]
  rw [hdec]
  rfl

theorem New_at_test_server :
    New (mux (.response 404 "" none)) 0 testServer testAuth []
      = ⟨some (some testClient, none), testClient,
          [⟨"http://127.0.0.1:8080/cgi-bin/luci/rpc/auth",
            "\x7b\"id\":99,\"method\":\"login\",\"params\":[\"root\",\"openwrt\"]\x7d"⟩]⟩ := rfl

theorem TestResponse403 :
    SysRPC (mux (.response 403 "" none)) 1 testClient [] "forbidden" none
      = ⟨some ("", some .ErrHttpForbidden), testClient,
          [firstRequest testClient "sys" "forbidden" none,
            firstRequest testClient "auth" "login" (some ["root", "openwrt"]),
            firstRequest testClient "sys" "forbidden" none]⟩ := rfl

/-! ## Unfolding `rpc` -/

theorem rpc_guard (E : Env) (fuel : Nat) (c : Client) (log : List Request)
    (library method : String) (params : Option (List String))
    (h : library ≠ "auth" ∧ c.token = "") :
    rpc E fuel c log library method params
      = ⟨some ("", some (.errorsNew "RPC client is not authenticated")), c, log⟩ := by
  unfold rpc
  simp [h]

theorem rpc_direct (E : Env) (fuel : Nat) (c : Client) (log : List Request)
    (library method : String) (params : Option (List String))
    (h : ¬ (library ≠ "auth" ∧ c.token = ""))
    (h1 : (call E log (c.url library) (marshalPayload ⟨c.id, method, params⟩)).2
      ≠ some .ErrHttpUnauthorized)
    (h2 : (call E log (c.url library) (marshalPayload ⟨c.id, method, params⟩)).2
      ≠ some .ErrHttpForbidden) :
    rpc E fuel c log library method params
      = ⟨some (rpcResult E
            (call E log (c.url library) (marshalPayload ⟨c.id, method, params⟩)).1
            (call E log (c.url library) (marshalPayload ⟨c.id, method, params⟩)).2), c,
          log ++ [firstRequest c library method params]⟩ := by
  unfold rpc
  simp [h, h1, h2, firstRequest]

theorem rpc_retry (E : Env) (f : Nat) (c : Client) (log : List Request)
    (library method : String) (params : Option (List String))
    (h : ¬ (library ≠ "auth" ∧ c.token = ""))
    (h1 : (call E log (c.url library) (marshalPayload ⟨c.id, method, params⟩)).2
        = some .ErrHttpUnauthorized
      ∨ (call E log (c.url library) (marshalPayload ⟨c.id, method, params⟩)).2
        = some .ErrHttpForbidden) :
    rpc E (f + 1) c log library method params
      = (match (login E f c (log ++ [firstRequest c library method params])).value with
         | none =>
           ⟨none, (login E f c (log ++ [firstRequest c library method params])).client,
             (login E f c (log ++ [firstRequest c library method params])).log⟩
         | some _ =>
           ⟨some (rpcResult E
              (call E (login E f c (log ++ [firstRequest c library method params])).log
                (c.url library) (marshalPayload ⟨c.id, method, params⟩)).1
              (call E (login E f c (log ++ [firstRequest c library method params])).log
                (c.url library) (marshalPayload ⟨c.id, method, params⟩)).2),
            (login E f c (log ++ [firstRequest c library method params])).client,
            (login E f c (log ++ [firstRequest c library method params])).log
              ++ [firstRequest c library method params]⟩) := by
  rw [rpc]
  simp only [h, h1, if_true, if_false, login, firstRequest]

theorem rpc_out_of_fuel (E : Env) (c : Client) (log : List Request)
    (library method : String) (params : Option (List String))
    (h : ¬ (library ≠ "auth" ∧ c.token = ""))
    (h1 : (call E log (c.url library) (marshalPayload ⟨c.id, method, params⟩)).2
        = some .ErrHttpUnauthorized
      ∨ (call E log (c.url library) (marshalPayload ⟨c.id, method, params⟩)).2
        = some .ErrHttpForbidden) :
    rpc E 0 c log library method params
      = ⟨none, c, log ++ [firstRequest c library method params]⟩ := by
  rw [rpc]
  simp only [h, h1, if_true, if_false, firstRequest]

theorem loginWith_log (R : Client → List Request → String → String → Option (List String) →
    Run (String × Option GoError)) (c : Client) (log : List Request) :
    (loginWith R c log).log
      = (R c log "auth" "login" (some [c.auth.Username, c.auth.Password])).log := by
  unfold loginWith
  dsimp only
  split <;> rfl

/-- Every run of `rpc` that passes the guard sends its first request: the log
it leaves starts with the log it found and that request. -/
theorem rpc_log_first (E : Env) (fuel : Nat) : ∀ (c : Client) (log : List Request)
    (library method : String) (params : Option (List String)),
    ¬ (library ≠ "auth" ∧ c.token = "") →
    ∃ rest, (rpc E fuel c log library method params).log
      = log ++ firstRequest c library method params :: rest := by
  induction fuel with
  | zero =>
    intro c log library method params h
    by_cases h1 : (call E log (c.url library) (marshalPayload ⟨c.id, method, params⟩)).2
        = some .ErrHttpUnauthorized
      ∨ (call E log (c.url library) (marshalPayload ⟨c.id, method, params⟩)).2
        = some .ErrHttpForbidden
    · exact ⟨[], by rw [rpc_out_of_fuel E c log library method params h h1]⟩
    · rw [not_or] at h1
      exact ⟨[], by rw [rpc_direct E 0 c log library method params h h1.1 h1.2]⟩
  | succ f ih =>
    intro c log library method params h
    by_cases h1 : (call E log (c.url library) (marshalPayload ⟨c.id, method, params⟩)).2
        = some .ErrHttpUnauthorized
      ∨ (call E log (c.url library) (marshalPayload ⟨c.id, method, params⟩)).2
        = some .ErrHttpForbidden
    · rw [rpc_retry E f c log library method params h h1]
      have hl : (login E f c (log ++ [firstRequest c library method params])).log
          = (rpc E f c (log ++ [firstRequest c library method params]) "auth" "login"
              (some [c.auth.Username, c.auth.Password])).log := loginWith_log _ _ _
      obtain ⟨rest, hrest⟩ := ih c (log ++ [firstRequest c library method params]) "auth" "login"
        (some [c.auth.Username, c.auth.Password]) (by simp)
      split
      · exact ⟨firstRequest c "auth" "login" (some [c.auth.Username, c.auth.Password]) :: rest,
          by simp [hl, hrest]⟩
      · exact ⟨firstRequest c "auth" "login" (some [c.auth.Username, c.auth.Password]) :: rest
            ++ [firstRequest c library method params],
          by simp [hl, hrest]⟩
    · rw [not_or] at h1
      exact ⟨[], by rw [rpc_direct E (f + 1) c log library method params h h1.1 h1.2]⟩

/-- A run of `rpc` that passes the guard and returns has sent a last request,
and what it returns is read off the answer to that request. -/
theorem rpc_value_last (E : Env) (fuel : Nat) (c : Client) (log : List Request)
    (library method : String) (params : Option (List String))
    (h : ¬ (library ≠ "auth" ∧ c.token = "")) (out : String × Option GoError)
    (hout : (rpc E fuel c log library method params).value = some out) :
    ∃ pre, (rpc E fuel c log library method params).log
        = pre ++ [firstRequest c library method params]
      ∧ out = rpcResult E
          (call E pre (c.url library) (marshalPayload ⟨c.id, method, params⟩)).1
          (call E pre (c.url library) (marshalPayload ⟨c.id, method, params⟩)).2 := by
  by_cases h1 : (call E log (c.url library) (marshalPayload ⟨c.id, method, params⟩)).2
      = some .ErrHttpUnauthorized
    ∨ (call E log (c.url library) (marshalPayload ⟨c.id, method, params⟩)).2
      = some .ErrHttpForbidden
  · cases fuel with
    | zero =>
      rw [rpc_out_of_fuel E c log library method params h h1] at hout
      exact absurd hout (by simp)
    | succ f =>
      rw [rpc_retry E f c log library method params h h1] at hout ⊢
      split at hout
      · exact absurd hout (by simp)
      · rename_i x hx
        simp only [hx]
        refine ⟨_, rfl, ?_⟩
        simpa using hout.symm
  · rw [not_or] at h1
    rw [rpc_direct E fuel c log library method params h h1.1 h1.2] at hout ⊢
    refine ⟨log, rfl, ?_⟩
    simpa using hout.symm

theorem call_success (E : Env) (log : List Request) (url data : String) (status : Nat)
    (body : String) (hhttp : E.http log ⟨url, data⟩ = .response status body none)
    (hstatus : status ≤ 226) : call E log url data = (body, none) := by
  unfold call
  rw [hhttp]
  simp [Nat.not_lt.mpr hstatus]

theorem rpcResult_result (E : Env) (body : String) (resp : Response)
    (hdec : jsonUnmarshal E.fl body = .ok resp) (herr : resp.Error = none) :
    rpcResult E body none = (normalize resp.Result, none) := by
  unfold rpcResult
  simp only [hdec, herr]
  cases resp.Result <;> rfl

theorem rpcResult_error (E : Env) (body : String) (resp : Response) (e : String)
    (hdec : jsonUnmarshal E.fl body = .ok resp) (herr : resp.Error = some e) :
    rpcResult E body none = ("", some (.errorsNew e)) := by
  unfold rpcResult
  simp only [hdec, herr]

theorem url_spec (c : Client) (uri : String) :
    c.url uri = specURL c.rpcServer.Hostname c.rpcServer.Port c.rpcServer.SSL c.token uri := by
  unfold Client.url specURL rpcURI
  by_cases hssl : c.rpcServer.SSL = true <;> by_cases h0 : c.rpcServer.Port = 0
    <;> by_cases h443 : c.rpcServer.Port = 443 <;> by_cases ht : c.token = ""
    <;> simp [hssl, h0, h443, ht, String.append_assoc]

theorem url_with_token (c : Client) (token uri : String) (ht : token ≠ "") :
    ({ c with token := token } : Client).url uri
      = specURL c.rpcServer.Hostname c.rpcServer.Port c.rpcServer.SSL "" uri
        ++ "?auth=" ++ token := by
  rw [url_spec]
  simp [specURL, ht, String.append_assoc]

theorem login_eq (E : Env) (fuel : Nat) (c : Client) (log : List Request)
    (token : String) (c1 : Client) (log1 : List Request)
    (h : rpc E fuel c log "auth" "login" (some [c.auth.Username, c.auth.Password])
      = ⟨some (token, none), c1, log1⟩) :
    login E fuel c log = ⟨some none, { c1 with token := token }, log1⟩ := by
  unfold login loginWith
  rw [h]

theorem login_eq_error (E : Env) (fuel : Nat) (c : Client) (log : List Request)
    (s : String) (err : GoError) (c1 : Client) (log1 : List Request)
    (h : rpc E fuel c log "auth" "login" (some [c.auth.Username, c.auth.Password])
      = ⟨some (s, some err), c1, log1⟩) :
    login E fuel c log = ⟨some (some err), c1, log1⟩ := by
  unfold login loginWith
  rw [h]

theorem login_eq_none (E : Env) (fuel : Nat) (c : Client) (log : List Request)
    (c1 : Client) (log1 : List Request)
    (h : rpc E fuel c log "auth" "login" (some [c.auth.Username, c.auth.Password])
      = ⟨none, c1, log1⟩) :
    login E fuel c log = ⟨none, c1, log1⟩ := by
  unfold login loginWith
  rw [h]

/-- Against a transport that answers every request with 401 or 403, a run of
`rpc` that passes the guard never returns: whatever the bound on nested
re-logins, it is reached, after one request for each level. -/
theorem rpc_never_returns (E : Env)
    (hE : ∀ log url data, (call E log url data).2 = some .ErrHttpUnauthorized
      ∨ (call E log url data).2 = some .ErrHttpForbidden) (fuel : Nat) :
    ∀ (c : Client) (log : List Request) (library method : String)
      (params : Option (List String)), ¬ (library ≠ "auth" ∧ c.token = "") →
      (rpc E fuel c log library method params).value = none
        ∧ (rpc E fuel c log library method params).log.length = log.length + (fuel + 1) := by
  induction fuel with
  | zero =>
    intro c log library method params h
    rw [rpc_out_of_fuel E c log library method params h (hE _ _ _)]
    simp
  | succ f ih =>
    intro c log library method params h
    obtain ⟨hv, hl⟩ := ih c (log ++ [firstRequest c library method params]) "auth" "login"
      (some [c.auth.Username, c.auth.Password]) (by simp)
    have hlv : (login E f c (log ++ [firstRequest c library method params])).value = none := by
      unfold login loginWith
      simp only [hv]
    have hll : (login E f c (log ++ [firstRequest c library method params])).log
        = (rpc E f c (log ++ [firstRequest c library method params]) "auth" "login"
            (some [c.auth.Username, c.auth.Password])).log := loginWith_log _ _ _
    rw [rpc_retry E f c log library method params h (hE _ _ _)]
    simp only [hlv, hll, hl]
    simp
    omega

/-- The bound on nested re-logins only decides whether a run returns: a run
that returns under a bound returns the same under the next one. -/
theorem rpc_fuel_succ (E : Env) (fuel : Nat) : ∀ (c : Client) (log : List Request)
    (library method : String) (params : Option (List String)),
    (rpc E fuel c log library method params).value ≠ none →
    rpc E (fuel + 1) c log library method params = rpc E fuel c log library method params := by
  induction fuel with
  | zero =>
    intro c log library method params hv
    by_cases h : library ≠ "auth" ∧ c.token = ""
    · rw [rpc_guard E 1 c log library method params h, rpc_guard E 0 c log library method params h]
    · by_cases h1 : (call E log (c.url library) (marshalPayload ⟨c.id, method, params⟩)).2
          = some .ErrHttpUnauthorized
        ∨ (call E log (c.url library) (marshalPayload ⟨c.id, method, params⟩)).2
          = some .ErrHttpForbidden
      · rw [rpc_out_of_fuel E c log library method params h h1] at hv
        exact absurd rfl hv
      · rw [not_or] at h1
        rw [rpc_direct E 1 c log library method params h h1.1 h1.2,
          rpc_direct E 0 c log library method params h h1.1 h1.2]
  | succ f ih =>
    intro c log library method params hv
    by_cases h : library ≠ "auth" ∧ c.token = ""
    · rw [rpc_guard E (f + 1 + 1) c log library method params h,
        rpc_guard E (f + 1) c log library method params h]
    · by_cases h1 : (call E log (c.url library) (marshalPayload ⟨c.id, method, params⟩)).2
          = some .ErrHttpUnauthorized
        ∨ (call E log (c.url library) (marshalPayload ⟨c.id, method, params⟩)).2
          = some .ErrHttpForbidden
      · have hlogin : (login E f c (log ++ [firstRequest c library method params])).value
            ≠ none := by
          intro hn
          rw [rpc_retry E f c log library method params h h1] at hv
          simp only [hn] at hv
          exact absurd rfl hv
        have hauth : (rpc E f c (log ++ [firstRequest c library method params]) "auth" "login"
            (some [c.auth.Username, c.auth.Password])).value ≠ none := by
          intro hn
          apply hlogin
          unfold login loginWith
          simp only [hn]
        have hsame : login E (f + 1) c (log ++ [firstRequest c library method params])
            = login E f c (log ++ [firstRequest c library method params]) := by
          unfold login loginWith
          rw [ih c (log ++ [firstRequest c library method params]) "auth" "login"
            (some [c.auth.Username, c.auth.Password]) hauth]
        rw [rpc_retry E (f + 1) c log library method params h h1,
          rpc_retry E f c log library method params h h1, hsame]
      · rw [not_or] at h1
        rw [rpc_direct E (f + 1 + 1) c log library method params h h1.1 h1.2,
          rpc_direct E (f + 1) c log library method params h h1.1 h1.2]

/-! ## The retry when the login request is not itself refused -/

/-- When the login request is answered with anything but 401 or 403, `login`
sends that one request and returns: the error of `rpc` if there is one (the
token is then the one held before), no error and the new token otherwise. -/
theorem login_direct (E : Env) (fuel : Nat) (c : Client) (log : List Request)
    (h1 : (call E log (c.url "auth")
      (marshalPayload ⟨c.id, "login", some [c.auth.Username, c.auth.Password]⟩)).2
        ≠ some .ErrHttpUnauthorized)
    (h2 : (call E log (c.url "auth")
      (marshalPayload ⟨c.id, "login", some [c.auth.Username, c.auth.Password]⟩)).2
        ≠ some .ErrHttpForbidden) :
    login E fuel c log
      = ⟨some (rpcResult E
            (call E log (c.url "auth")
              (marshalPayload ⟨c.id, "login", some [c.auth.Username, c.auth.Password]⟩)).1
            (call E log (c.url "auth")
              (marshalPayload ⟨c.id, "login", some [c.auth.Username, c.auth.Password]⟩)).2).2,
          afterLogin c (rpcResult E
            (call E log (c.url "auth")
              (marshalPayload ⟨c.id, "login", some [c.auth.Username, c.auth.Password]⟩)).1
            (call E log (c.url "auth")
              (marshalPayload ⟨c.id, "login", some [c.auth.Username, c.auth.Password]⟩)).2),
          log ++ [firstRequest c "auth" "login" (some [c.auth.Username, c.auth.Password])]⟩ := by
  have hrpc := rpc_direct E fuel c log "auth" "login"
    (some [c.auth.Username, c.auth.Password]) (by simp) h1 h2
  generalize rpcResult E _ _ = r at hrpc ⊢
  obtain ⟨token, err⟩ := r
  cases err with
  | none => exact login_eq E fuel c log token c _ hrpc
  | some e => exact login_eq_error E fuel c log token e c _ hrpc

/-- A failed login whose request was answered with anything but 401 or 403
leaves the client as it was. -/
theorem login_failure_keeps_client (E : Env) (fuel : Nat) (c : Client) (log : List Request)
    (h1 : (call E log (c.url "auth")
      (marshalPayload ⟨c.id, "login", some [c.auth.Username, c.auth.Password]⟩)).2
        ≠ some .ErrHttpUnauthorized)
    (h2 : (call E log (c.url "auth")
      (marshalPayload ⟨c.id, "login", some [c.auth.Username, c.auth.Password]⟩)).2
        ≠ some .ErrHttpForbidden)
    (err : GoError) (herr : (login E fuel c log).value = some (some err)) :
    (login E fuel c log).client = c := by
  rw [login_direct E fuel c log h1 h2] at herr ⊢
  generalize rpcResult E _ _ = r at herr ⊢
  obtain ⟨token, e⟩ := r
  cases e with
  | none => simp at herr
  | some e => rfl

/-- When the first request is answered with 401 or 403 and the login request
that follows is answered with anything else, `rpc` sends three requests (the
call, the login, the call again, to the URL computed before the login) and
returns what the answer to the third gives. -/
theorem rpc_retry_once (E : Env) (f : Nat) (c : Client) (log : List Request)
    (library method : String) (params : Option (List String))
    (h : ¬ (library ≠ "auth" ∧ c.token = ""))
    (h1 : (call E log (c.url library) (marshalPayload ⟨c.id, method, params⟩)).2
        = some .ErrHttpUnauthorized
      ∨ (call E log (c.url library) (marshalPayload ⟨c.id, method, params⟩)).2
        = some .ErrHttpForbidden)
    (h2 : (call E (log ++ [firstRequest c library method params]) (c.url "auth")
      (marshalPayload ⟨c.id, "login", some [c.auth.Username, c.auth.Password]⟩)).2
        ≠ some .ErrHttpUnauthorized)
    (h3 : (call E (log ++ [firstRequest c library method params]) (c.url "auth")
      (marshalPayload ⟨c.id, "login", some [c.auth.Username, c.auth.Password]⟩)).2
        ≠ some .ErrHttpForbidden) :
    (rpc E (f + 1) c log library method params).value
        = some (rpcResult E
            (call E (log ++ [firstRequest c library method params,
                firstRequest c "auth" "login" (some [c.auth.Username, c.auth.Password])])
              (c.url library) (marshalPayload ⟨c.id, method, params⟩)).1
            (call E (log ++ [firstRequest c library method params,
                firstRequest c "auth" "login" (some [c.auth.Username, c.auth.Password])])
              (c.url library) (marshalPayload ⟨c.id, method, params⟩)).2)
      ∧ (rpc E (f + 1) c log library method params).log
        = log ++ [firstRequest c library method params,
            firstRequest c "auth" "login" (some [c.auth.Username, c.auth.Password]),
            firstRequest c library method params] := by
  rw [rpc_retry E f c log library method params h h1,
    login_direct E f c (log ++ [firstRequest c library method params]) h2 h3]
  simp

/-- When the login request is answered with anything but 401 or 403 and `rpc`
reports an error for it, `New` sends that one request and returns the error
and no client. -/
theorem New_fails_directly (E : Env) (fuel : Nat) (rpcServer : RpcServer) (auth : Auth)
    (log : List Request) (s : String) (err : GoError)
    (h1 : (call E log ((newClient rpcServer auth).url "auth")
      (marshalPayload ⟨rpcID, "login", some [(newClient rpcServer auth).auth.Username,
        (newClient rpcServer auth).auth.Password]⟩)).2 ≠ some .ErrHttpUnauthorized)
    (h2 : (call E log ((newClient rpcServer auth).url "auth")
      (marshalPayload ⟨rpcID, "login", some [(newClient rpcServer auth).auth.Username,
        (newClient rpcServer auth).auth.Password]⟩)).2 ≠ some .ErrHttpForbidden)
    (hres : rpcResult E
        (call E log ((newClient rpcServer auth).url "auth")
          (marshalPayload ⟨rpcID, "login", some [(newClient rpcServer auth).auth.Username,
            (newClient rpcServer auth).auth.Password]⟩)).1
        (call E log ((newClient rpcServer auth).url "auth")
          (marshalPayload ⟨rpcID, "login", some [(newClient rpcServer auth).auth.Username,
            (newClient rpcServer auth).auth.Password]⟩)).2 = (s, some err)) :
    New E fuel rpcServer auth log
      = ⟨some (none, some err), newClient rpcServer auth,
          log ++ [firstRequest (newClient rpcServer auth) "auth" "login"
            (some [(newClient rpcServer auth).auth.Username,
              (newClient rpcServer auth).auth.Password])]⟩ := by
  have hlogin := login_direct E fuel (newClient rpcServer auth) log h1 h2
  have hid : (newClient rpcServer auth).id = rpcID := rfl
  rw [hid, hres] at hlogin
  show (match (login E fuel (newClient rpcServer auth) log).value with
    | none => (⟨none, (login E fuel (newClient rpcServer auth) log).client,
        (login E fuel (newClient rpcServer auth) log).log⟩ : Run (Option Client × Option GoError))
    | some (some err) =>
      ⟨some (none, some err), (login E fuel (newClient rpcServer auth) log).client,
        (login E fuel (newClient rpcServer auth) log).log⟩
    | some none =>
      ⟨some (some (login E fuel (newClient rpcServer auth) log).client, none),
        (login E fuel (newClient rpcServer auth) log).client,
        (login E fuel (newClient rpcServer auth) log).log⟩) = _
  rw [hlogin]
  rfl

/-! ## Decoding what the encoder wrote -/

theorem flatMap_encodeChar_plain (s : List Char) (h : s.all plainChar = true) :
    s.flatMap encodeChar = s := by
  induction s with
  | nil => rfl
  | cons c cs ih =>
    simp only [List.all_cons, Bool.and_eq_true] at h
    simp [List.flatMap_cons, encodeChar, h.1, ih h.2]

theorem encodeString_plain (s : List Char) (h : s.all plainChar = true) :
    encodeString s = '"' :: (s ++ ['"']) := by
  unfold encodeString
  rw [flatMap_encodeChar_plain s h]

theorem plainChar_ne_quote (c : Char) (h : plainChar c = true) :
    c ≠ '"' ∧ c ≠ '\\' ∧ ¬ c.toNat < 0x20 := by
  simp only [plainChar, Bool.and_eq_true, bne_iff_ne, ne_eq, decide_eq_true_eq] at h
  refine ⟨h.1.1.1.1.1.1.2, h.1.1.1.1.1.2, by omega⟩

theorem scanString_plain (s rest : List Char) (h : s.all plainChar = true) :
    scanString none (s ++ '"' :: rest) = some (s, rest) := by
  induction s with
  | nil =>
    rw [List.nil_append, scanString.eq_def]
    simp [flush]
  | cons c cs ih =>
    simp only [List.all_cons, Bool.and_eq_true] at h
    obtain ⟨h1, h2, h3⟩ := plainChar_ne_quote c h.1
    rw [List.cons_append, scanString.eq_def]
    simp [h1, h2, h3, ih h.2, flush, consChar]

theorem closes_head (c : Char) (r : List Char) (h : closes (c :: r) = true) :
    c = ',' ∨ c = ']' ∨ c = '\x7d' := by
  simpa [closes, or_assoc] using h

theorem skipSpace_closes (rest : List Char) (h : closes rest = true) : skipSpace rest = rest := by
  cases rest with
  | nil => rfl
  | cons c r =>
    rcases closes_head c r h with h | h | h <;> subst h <;> rfl

theorem takeDigits_append (ds rest : List Char) (h : ds.all Char.isDigit = true)
    (hr : closes rest = true) : takeDigits (ds ++ rest) = (ds, rest) := by
  induction ds with
  | nil =>
    cases rest with
    | nil => rfl
    | cons c r =>
      rcases closes_head c r hr with h | h | h <;> subst h <;> rfl
  | cons d ds ih =>
    simp only [List.all_cons, Bool.and_eq_true] at h
    simp [takeDigits, h.1, ih h.2]

theorem scanFrac_closes (rest : List Char) (hr : closes rest = true) :
    scanFrac rest = some ([], rest) := by
  cases rest with
  | nil => rfl
  | cons c r =>
    rcases closes_head c r hr with h | h | h <;> subst h <;> rfl

theorem scanExp_closes (rest : List Char) (hr : closes rest = true) :
    scanExp rest = some ([], rest) := by
  cases rest with
  | nil => rfl
  | cons c r =>
    rcases closes_head c r hr with h | h | h <;> subst h <;> rfl

theorem scanInt_plain (ds rest : List Char) (h : plainDigits ds = true)
    (hr : closes rest = true) : scanInt (ds ++ rest) = some (ds, rest) := by
  cases ds with
  | nil => simp [plainDigits] at h
  | cons c cs =>
    simp only [plainDigits, Bool.and_eq_true] at h
    by_cases hc : c = '0'
    · simp only [hc, if_true, List.isEmpty_iff] at h
      simp [scanInt, hc, h.1]
    · simp only [hc, if_false, Bool.and_eq_true] at h
      simp [scanInt, hc, h.1.1, takeDigits_append cs rest h.1.2 hr]

theorem scanNumber_unsigned (ds rest : List Char) (h : plainDigits ds = true)
    (hr : closes rest = true) (hsign : ∀ r, ds ≠ '-' :: r) :
    scanNumber (ds ++ rest) = some (ds, rest) := by
  have h0 : (match ds ++ rest with
      | '-' :: r => (['-'], r)
      | r => ([], r)) = (([] : List Char), ds ++ rest) := by
    cases ds with
    | nil => simp [plainDigits] at h
    | cons c cs =>
      have : c ≠ '-' := fun hc => hsign cs (by rw [hc])
      simp [this]
  unfold scanNumber
  simp [h0, scanInt_plain ds rest h hr, scanFrac_closes rest hr, scanExp_closes rest hr]

theorem scanNumber_plain (lit rest : List Char) (h : plainNumber lit = true)
    (hr : closes rest = true) : scanNumber (lit ++ rest) = some (lit, rest) := by
  cases lit with
  | nil => simp [plainNumber] at h
  | cons c cs =>
    simp only [plainNumber] at h
    by_cases hc : c = '-'
    · simp only [hc, if_true] at h
      subst hc
      unfold scanNumber
      simp [scanInt_plain cs rest h hr, scanFrac_closes rest hr, scanExp_closes rest hr]
    · simp only [hc, if_false] at h
      exact scanNumber_unsigned (c :: cs) rest h hr (fun r hr1 => hc (List.cons.inj hr1).1)

theorem plainNumber_head (c : Char) (cs : List Char) (h : plainNumber (c :: cs) = true) :
    c = '-' ∨ c.isDigit = true := by
  simp only [plainNumber] at h
  by_cases hc : c = '-'
  · exact Or.inl hc
  · simp only [hc, if_false, plainDigits, Bool.and_eq_true] at h
    by_cases h0 : c = '0'
    · exact Or.inr (by rw [h0]; rfl)
    · simp only [h0, if_false, Bool.and_eq_true] at h
      exact Or.inr h.1.1

theorem encodeValue_head (v : Value) (hp : v.verbatim = true) :
    ∃ c tl, encodeValue v = c :: tl ∧ startsValue c := by
  cases v with
  | null => exact ⟨_, _, rfl, Or.inl rfl⟩
  | bool b =>
    cases b
    · exact ⟨_, _, rfl, Or.inr (Or.inr (Or.inl rfl))⟩
    · exact ⟨_, _, rfl, Or.inr (Or.inl rfl)⟩
  | number text =>
    simp only [Value.verbatim] at hp
    cases hd : text.data with
    | nil => rw [hd] at hp; simp [plainNumber] at hp
    | cons c cs =>
      rw [hd] at hp
      refine ⟨c, cs, by simp [encodeValue, hd], ?_⟩
      rcases plainNumber_head c cs hp with h | h
      · exact Or.inr (Or.inr (Or.inr (Or.inr (Or.inr (Or.inr (Or.inl h))))))
      · exact Or.inr (Or.inr (Or.inr (Or.inr (Or.inr (Or.inr (Or.inr h))))))
  | string s => exact ⟨_, _, rfl, Or.inr (Or.inr (Or.inr (Or.inl rfl)))⟩
  | array xs =>
    cases xs <;> exact ⟨_, _, rfl, Or.inr (Or.inr (Or.inr (Or.inr (Or.inl rfl))))⟩
  | object ms =>
    cases ms <;> exact ⟨_, _, rfl, Or.inr (Or.inr (Or.inr (Or.inr (Or.inr (Or.inl rfl)))))⟩

theorem startsValue_not_space (c : Char) (h : startsValue c) :
    isSpace c = false ∧ c ≠ ']' ∧ c ≠ '\x7d' := by
  rcases h with h | h | h | h | h | h | h | h
  any_goals (subst h; exact ⟨rfl, by decide, by decide⟩)
  refine ⟨?_, ?_, ?_⟩
  · simp only [isSpace, Bool.or_eq_false_iff, beq_eq_false_iff_ne, ne_eq]
    refine ⟨⟨⟨?_, ?_⟩, ?_⟩, ?_⟩ <;> intro hc <;> rw [hc] at h <;> exact absurd h (by decide)
  · intro hc; rw [hc] at h; exact absurd h (by decide)
  · intro hc; rw [hc] at h; exact absurd h (by decide)

theorem skipSpace_encodeValue (v : Value) (hp : v.verbatim = true) (r : List Char) :
    skipSpace (encodeValue v ++ r) = encodeValue v ++ r := by
  obtain ⟨c, tl, hc, hs⟩ := encodeValue_head v hp
  rw [hc, List.cons_append, skipSpace, (startsValue_not_space c hs).1]
  rfl

theorem closes_encodeElems (vs : Values) (r : List Char) : closes (encodeElems vs ++ r) = true := by
  cases vs <;> simp [encodeElems, closes]

theorem closes_encodeMembers (ms : Members) (r : List Char) :
    closes (encodeMembers ms ++ r) = true := by
  cases ms <;> simp [encodeMembers, closes]

theorem startsValue_dispatch (c : Char) (h : c = '-' ∨ c.isDigit = true) :
    c ≠ 'n' ∧ c ≠ 't' ∧ c ≠ 'f' ∧ c ≠ '"' ∧ c ≠ '[' ∧ c ≠ '\x7b' := by
  rcases h with h | h
  · subst h; decide
  · refine ⟨?_, ?_, ?_, ?_, ?_, ?_⟩ <;> intro hc <;> rw [hc] at h <;> exact absurd h (by decide)

theorem parseValue_null (fuel d : Nat) (rest : List Char)
    (hf : (encodeValue .null).length ≤ fuel) :
    parseValue fuel d (encodeValue .null ++ rest) = some (.null, rest) := by
  obtain ⟨f, rfl⟩ : ∃ f, fuel = f + 1 := ⟨fuel - 1, by simp [encodeValue] at hf; omega⟩
  simp [encodeValue, parseValue, expect]

theorem parseValue_bool (b : Bool) (fuel d : Nat) (rest : List Char)
    (hf : (encodeValue (.bool b)).length ≤ fuel) :
    parseValue fuel d (encodeValue (.bool b) ++ rest) = some (.bool b, rest) := by
  obtain ⟨f, rfl⟩ : ∃ f, fuel = f + 1 :=
    ⟨fuel - 1, by cases b <;> simp [encodeValue] at hf <;> omega⟩
  cases b <;> simp [encodeValue, parseValue, expect]

theorem parseValue_number (text : String) (fuel d : Nat) (rest : List Char)
    (hp : plainNumber text.data = true) (hf : (encodeValue (.number text)).length ≤ fuel)
    (hr : closes rest = true) :
    parseValue fuel d (encodeValue (.number text) ++ rest) = some (.number text, rest) := by
  cases hd : text.data with
  | nil => rw [hd] at hp; simp [plainNumber] at hp
  | cons c cs =>
    obtain ⟨f, rfl⟩ : ∃ f, fuel = f + 1 := ⟨fuel - 1, by simp [encodeValue, hd] at hf; omega⟩
    have hnum := scanNumber_plain text.data rest hp hr
    rw [hd] at hp hnum
    obtain ⟨h1, h2, h3, h4, h5, h6⟩ := startsValue_dispatch c (plainNumber_head c cs hp)
    have htext : text = String.mk (c :: cs) := by rw [← hd]
    simp only [encodeValue, hd, List.cons_append]
    rw [List.cons_append] at hnum
    simp only [parseValue, h1, h2, h3, h4, h5, h6, if_false]
    rw [hnum, htext]
    rfl

theorem parseValue_string (s : String) (fuel d : Nat) (rest : List Char)
    (hp : s.data.all plainChar = true) (hf : (encodeValue (.string s)).length ≤ fuel) :
    parseValue fuel d (encodeValue (.string s) ++ rest) = some (.string s, rest) := by
  obtain ⟨f, rfl⟩ : ∃ f, fuel = f + 1 := ⟨fuel - 1, by
    simp [encodeValue, encodeString] at hf; omega⟩
  simp only [encodeValue, encodeString_plain s.data hp, List.cons_append, List.append_assoc]
  simp only [parseValue]
  simp [scanString_plain s.data rest hp]

theorem parseValue_array (xs : Values) (f d1 : Nat) (rest : List Char)
    (hp : xs.verbatim = true)
    (hbody : xs ≠ .nil → parseElems f d1 (encodeArrayBody xs ++ rest) = some (xs, rest)) :
    parseValue (f + 1) (d1 + 1) (encodeValue (.array xs) ++ rest) = some (.array xs, rest) := by
  cases xs with
  | nil => simp [encodeValue, parseValue, skipSpace, isSpace]
  | cons v vs =>
    have hbody1 := hbody (by simp)
    simp only [Values.verbatim, Bool.and_eq_true] at hp
    obtain ⟨c, tl, hc, hs⟩ := encodeValue_head v hp.1
    obtain ⟨hs1, hs2, _⟩ := startsValue_not_space c hs
    simp only [encodeArrayBody, hc, List.cons_append, List.append_assoc] at hbody1
    simp only [encodeValue, hc, List.cons_append, List.append_assoc]
    simp only [parseValue]
    simp [skipSpace, hs1, hs2, hbody1]

theorem parseValue_object (ms : Members) (f d1 : Nat) (rest : List Char)
    (hp : ms.verbatim = true)
    (hbody : ms ≠ .nil → parseMembers f d1 (encodeObjectBody ms ++ rest) = some (ms, rest)) :
    parseValue (f + 1) (d1 + 1) (encodeValue (.object ms) ++ rest) = some (.object ms, rest) := by
  cases ms with
  | nil => simp [encodeValue, parseValue, skipSpace, isSpace]
  | cons k v ms =>
    have hbody1 := hbody (by simp)
    simp only [Members.verbatim, Bool.and_eq_true] at hp
    simp only [encodeObjectBody, encodeString_plain k.data hp.1.1, List.cons_append,
      List.append_assoc, List.nil_append] at hbody1
    simp only [encodeValue, encodeString_plain k.data hp.1.1, List.cons_append,
      List.append_assoc, List.nil_append]
    simp only [parseValue]
    simp [skipSpace, isSpace, hbody1]

theorem parseElems_step (v : Value) (vs : Values) (f d : Nat) (rest : List Char)
    (hp : (Values.cons v vs).verbatim = true)
    (hv : parseValue f d (encodeValue v ++ (encodeElems vs ++ rest))
      = some (v, encodeElems vs ++ rest))
    (hrec : vs ≠ .nil → parseElems f d (encodeArrayBody vs ++ rest) = some (vs, rest)) :
    parseElems (f + 1) d (encodeArrayBody (.cons v vs) ++ rest) = some (.cons v vs, rest) := by
  simp only [encodeArrayBody, List.append_assoc]
  simp only [parseElems, hv]
  cases vs with
  | nil => simp [encodeElems, skipSpace, isSpace]
  | cons v1 vs1 =>
    have hrec1 := hrec (by simp)
    simp only [Values.verbatim, Bool.and_eq_true] at hp
    have hsk := skipSpace_encodeValue v1 hp.2.1 (encodeElems vs1 ++ rest)
    simp only [encodeArrayBody, List.append_assoc] at hrec1
    simp [encodeElems, skipSpace, isSpace, hsk, hrec1]

theorem parseMembers_step (k : String) (v : Value) (ms : Members) (f d : Nat)
    (rest : List Char) (hp : (Members.cons k v ms).verbatim = true)
    (hv : parseValue f d (encodeValue v ++ (encodeMembers ms ++ rest))
      = some (v, encodeMembers ms ++ rest))
    (hrec : ms ≠ .nil → parseMembers f d (encodeObjectBody ms ++ rest) = some (ms, rest)) :
    parseMembers (f + 1) d (encodeObjectBody (.cons k v ms) ++ rest)
      = some (.cons k v ms, rest) := by
  simp only [Members.verbatim, Bool.and_eq_true] at hp
  have hsv := skipSpace_encodeValue v hp.1.2 (encodeMembers ms ++ rest)
  have hkey := scanString_plain k.data (':' :: (encodeValue v ++ (encodeMembers ms ++ rest)))
    hp.1.1
  simp only [encodeObjectBody, encodeString_plain k.data hp.1.1, List.cons_append,
    List.append_assoc, List.nil_append]
  simp only [parseMembers, hkey]
  simp [skipSpace, isSpace, hsv, hv]
  cases ms with
  | nil => simp [skipSpace, isSpace, encodeMembers]
  | cons k1 v1 ms1 =>
    have hrec1 := hrec (by simp)
    simp only [Members.verbatim, Bool.and_eq_true] at hp
    simp only [encodeObjectBody, encodeString_plain k1.data hp.2.1.1, List.cons_append,
      List.append_assoc, List.nil_append] at hrec1
    simp [skipSpace, isSpace, encodeMembers, encodeString_plain k1.data hp.2.1.1, hrec1]

theorem length_encodeArrayBody (xs : Values) :
    (encodeArrayBody xs).length + 1 = (encodeElems xs).length
      ∧ (encodeArrayBody xs).length + 1 ≤ (encodeValue (.array xs)).length := by
  cases xs <;> simp [encodeArrayBody, encodeElems, encodeValue]

theorem length_encodeObjectBody (ms : Members) :
    (encodeObjectBody ms).length + 1 = (encodeMembers ms).length
      ∧ (encodeObjectBody ms).length + 1 ≤ (encodeValue (.object ms)).length := by
  cases ms <;> simp [encodeObjectBody, encodeMembers, encodeValue]

mutual
theorem parseValue_encode : (v : Value) → (fuel d : Nat) → (rest : List Char) →
    v.verbatim = true → (encodeValue v).length ≤ fuel → v.depth ≤ d → closes rest = true →
    parseValue fuel d (encodeValue v ++ rest) = some (v, rest)
  | .null, fuel, d, rest, _, hf, _, _ => parseValue_null fuel d rest hf
  | .bool b, fuel, d, rest, _, hf, _, _ => parseValue_bool b fuel d rest hf
  | .number text, fuel, d, rest, hp, hf, _, hr => parseValue_number text fuel d rest hp hf hr
  | .string s, fuel, d, rest, hp, hf, _, _ => parseValue_string s fuel d rest hp hf
  | .array xs, fuel, d, rest, hp, hf, hd, hr => by
    have hlen := (length_encodeArrayBody xs).2
    obtain ⟨f, rfl⟩ : ∃ f, fuel = f + 1 := ⟨fuel - 1, by omega⟩
    obtain ⟨d1, rfl⟩ : ∃ d1, d = d1 + 1 := ⟨d - 1, by simp only [Value.depth] at hd; omega⟩
    exact parseValue_array xs f d1 rest hp
      (parseElems_encode xs f d1 rest hp (by omega) (by simp only [Value.depth] at hd; omega) hr)
  | .object ms, fuel, d, rest, hp, hf, hd, hr => by
    have hlen := (length_encodeObjectBody ms).2
    obtain ⟨f, rfl⟩ : ∃ f, fuel = f + 1 := ⟨fuel - 1, by omega⟩
    obtain ⟨d1, rfl⟩ : ∃ d1, d = d1 + 1 := ⟨d - 1, by simp only [Value.depth] at hd; omega⟩
    exact parseValue_object ms f d1 rest hp
      (parseMembers_encode ms f d1 rest hp (by omega) (by simp only [Value.depth] at hd; omega) hr)
theorem parseElems_encode : (xs : Values) → (fuel d : Nat) → (rest : List Char) →
    xs.verbatim = true → (encodeArrayBody xs).length ≤ fuel → xs.depth ≤ d → closes rest = true →
    xs ≠ .nil → parseElems fuel d (encodeArrayBody xs ++ rest) = some (xs, rest)
  | .nil, _, _, _, _, _, _, _, hne => absurd rfl hne
  | .cons v vs, fuel, d, rest, hp, hf, hd, hr, _ => by
    have hlen := (length_encodeArrayBody vs).1
    have hpv : v.verbatim = true ∧ vs.verbatim = true := by
      simpa only [Values.verbatim, Bool.and_eq_true] using hp
    simp only [Values.depth] at hd
    simp only [encodeArrayBody, List.length_append] at hf
    obtain ⟨f, rfl⟩ : ∃ f, fuel = f + 1 := ⟨fuel - 1, by omega⟩
    exact parseElems_step v vs f d rest hp
      (parseValue_encode v f d (encodeElems vs ++ rest) hpv.1 (by omega)
        (le_trans (le_max_left _ _) hd) (closes_encodeElems vs rest))
      (parseElems_encode vs f d rest hpv.2 (by omega) (le_trans (le_max_right _ _) hd) hr)
theorem parseMembers_encode : (ms : Members) → (fuel d : Nat) → (rest : List Char) →
    ms.verbatim = true → (encodeObjectBody ms).length ≤ fuel → ms.depth ≤ d → closes rest = true →
    ms ≠ .nil → parseMembers fuel d (encodeObjectBody ms ++ rest) = some (ms, rest)
  | .nil, _, _, _, _, _, _, _, hne => absurd rfl hne
  | .cons k v ms, fuel, d, rest, hp, hf, hd, hr, _ => by
    have hlen := (length_encodeObjectBody ms).1
    have hpv : (k.data.all plainChar = true ∧ v.verbatim = true) ∧ ms.verbatim = true := by
      simpa only [Members.verbatim, Bool.and_eq_true] using hp
    simp only [Members.depth] at hd
    simp only [encodeObjectBody, List.length_append, List.length_cons] at hf
    obtain ⟨f, rfl⟩ : ∃ f, fuel = f + 1 := ⟨fuel - 1, by omega⟩
    exact parseMembers_step k v ms f d rest hp
      (parseValue_encode v f d (encodeMembers ms ++ rest) hpv.1.2 (by omega)
        (le_trans (le_max_left _ _) hd) (closes_encodeMembers ms rest))
      (parseMembers_encode ms f d rest hpv.2 (by omega) (le_trans (le_max_right _ _) hd) hr)
end

theorem intLiteral_plainDigits (ds : List Char) (h : plainDigits ds = true) :
    ds ≠ [] ∧ ds.all Char.isDigit = true ∧ digitsVal ds ≤ 2 ^ 53 := by
  cases ds with
  | nil => simp [plainDigits] at h
  | cons c cs =>
    simp only [plainDigits, Bool.and_eq_true, decide_eq_true_eq] at h
    refine ⟨by simp, ?_, h.2⟩
    by_cases hc : c = '0'
    · simp only [hc, if_true, List.isEmpty_iff] at h
      rw [hc, h.1]
      rfl
    · simp only [hc, if_false, Bool.and_eq_true] at h
      simp [h.1.1, h.1.2]

theorem intLiteral_signed (cs : List Char) (h1 : cs ≠ []) (h2 : cs.all Char.isDigit = true) :
    intLiteral ('-' :: cs) = some (true, cs) := by
  unfold intLiteral
  dsimp only
  rw [if_pos rfl, if_pos ⟨h1, h2⟩]

theorem intLiteral_unsigned (c : Char) (cs : List Char) (hc : c ≠ '-')
    (h2 : (c :: cs).all Char.isDigit = true) : intLiteral (c :: cs) = some (false, c :: cs) := by
  unfold intLiteral
  dsimp only
  rw [if_neg hc, if_pos h2]

theorem float64Text_plain (fl : String → Option String) (text : String)
    (h : plainNumber text.data = true) : float64Text fl text.data = some text := by
  cases hd : text.data with
  | nil => rw [hd] at h; simp [plainNumber] at h
  | cons c cs =>
    rw [hd] at h
    have htext : String.mk (c :: cs) = text := by rw [← hd]
    simp only [plainNumber] at h
    unfold float64Text
    by_cases hc : c = '-'
    · simp only [hc, if_true] at h
      obtain ⟨h1, h2, h3⟩ := intLiteral_plainDigits cs h
      rw [hc, intLiteral_signed cs h1 h2]
      simp only [if_pos h3, ← htext, hc]
    · simp only [hc, if_false] at h
      obtain ⟨_, h2, h3⟩ := intLiteral_plainDigits (c :: cs) h
      rw [intLiteral_unsigned c cs hc h2]
      simp only [if_pos h3, htext]

theorem put_startsAbove (k : String) (v : Value) (ms : Members)
    (h : ms.startsAbove k = true) : Members.put k v ms = .cons k v ms := by
  cases ms with
  | nil => rfl
  | cons k1 v1 ms1 =>
    simp only [Members.startsAbove] at h
    simp [Members.put, h]

mutual
theorem store_plain (fl : String → Option String) : (v : Value) → v.verbatim = true →
    v.ordered = true → store fl v = some v
  | .null, _, _ => rfl
  | .bool _, _, _ => rfl
  | .number text, hv, _ => by
    simp only [Value.verbatim] at hv
    simp [store, float64Text_plain fl text hv]
  | .string _, _, _ => rfl
  | .array xs, hv, ho => by
    simp only [Value.verbatim] at hv
    simp only [Value.ordered] at ho
    simp [store, storeElems_plain fl xs hv ho]
  | .object ms, hv, ho => by
    simp only [Value.verbatim] at hv
    simp only [Value.ordered] at ho
    simp [store, storeMembers_plain fl ms hv ho]
theorem storeElems_plain (fl : String → Option String) : (xs : Values) → xs.verbatim = true →
    xs.ordered = true → storeElems fl xs = some xs
  | .nil, _, _ => rfl
  | .cons v vs, hv, ho => by
    simp only [Values.verbatim, Bool.and_eq_true] at hv
    simp only [Values.ordered, Bool.and_eq_true] at ho
    simp [storeElems, store_plain fl v hv.1 ho.1, storeElems_plain fl vs hv.2 ho.2]
theorem storeMembers_plain (fl : String → Option String) : (ms : Members) →
    ms.verbatim = true → ms.ordered = true → storeMembers fl ms = some ms
  | .nil, _, _ => rfl
  | .cons k v ms, hv, ho => by
    simp only [Members.verbatim, Bool.and_eq_true] at hv
    simp only [Members.ordered, Bool.and_eq_true] at ho
    simp [storeMembers, store_plain fl v hv.1.2 ho.1.2, storeMembers_plain fl ms hv.2 ho.2,
      put_startsAbove k v ms ho.1.1]
end

theorem okBody_data (v : Value) :
    (okBody (jsonMarshal v)).data = encodeValue (envelope v) ++ [] := by
  simp [okBody, jsonMarshal, envelope, encodeValue, encodeMembers, encodeString, encodeChar,
    plainChar, String.data_append]
  rfl

theorem jsonUnmarshal_okBody (fl : String → Option String) (v : Value)
    (hv : v.verbatim = true) (ho : v.ordered = true) (hd : v.depth < maxNestingDepth) :
    jsonUnmarshal fl (okBody (jsonMarshal v)) = .ok ⟨99, v, none⟩ := by
  have henv : (envelope v).verbatim = true := by
    simp [envelope, Value.verbatim, Members.verbatim, hv]
    decide
  have hparse := parseValue_encode (envelope v) ((encodeValue (envelope v) ++ []).length + 1)
    maxNestingDepth [] henv (by simp) (by simp [envelope, Value.depth, Members.depth]; omega) rfl
  have hskip : skipSpace (encodeValue (envelope v) ++ []) = encodeValue (envelope v) ++ [] :=
    skipSpace_encodeValue (envelope v) henv []
  unfold jsonUnmarshal parseDocument
  rw [okBody_data, hskip, hparse]
  simp only [skipSpace, if_true, envelope, decodeResponse, decodeMembers]
  have h1 : decodeField fl "id" (.number "99") (⟨0, .null, none⟩, none)
      = (⟨99, .null, none⟩, none) := rfl
  have h2 : decodeField fl "result" v (⟨99, .null, none⟩, none) = (⟨99, v, none⟩, none) := by
    show decodeResult fl v (⟨99, .null, none⟩, none) = _
    unfold decodeResult
    rw [store_plain fl v hv ho]
  have h3 : decodeField fl "error" .null (⟨99, v, none⟩, none) = (⟨99, v, none⟩, none) := rfl
  rw [h1, h2, h3]

/-! ## The claims -/

/-- C1: with an empty token and a namespace other than `auth` (so for `SysRPC`,
`UciRPC` and `FsRPC`), `rpc` returns the empty result and the error "RPC client
is not authenticated", sends nothing (the log is unchanged) and leaves the
client as it was; with the namespace `auth` the same client does send a request
(to the URL of `auth`, with the encoded payload). -/
theorem rpc_unauthenticated (E : Env) (fuel : Nat) (c : Client) (log : List Request)
    (library method : String) (params : Option (List String))
    (htoken : c.token = "") (hlib : library ≠ "auth") :
    rpc E fuel c log library method params
        = ⟨some ("", some (.errorsNew "RPC client is not authenticated")), c, log⟩
      ∧ (GoError.errorsNew "RPC client is not authenticated").Error
        = "RPC client is not authenticated"
      ∧ SysRPC E fuel c log method params
        = ⟨some ("", some (.errorsNew "RPC client is not authenticated")), c, log⟩
      ∧ UciRPC E fuel c log method params
        = ⟨some ("", some (.errorsNew "RPC client is not authenticated")), c, log⟩
      ∧ FsRPC E fuel c log method params
        = ⟨some ("", some (.errorsNew "RPC client is not authenticated")), c, log⟩
      ∧ ∃ rest, (rpc E fuel c log "auth" method params).log
        = log ++ ⟨c.url "auth", marshalPayload ⟨c.id, method, params⟩⟩ :: rest := by
  refine ⟨rpc_guard E fuel c log library method params ⟨hlib, htoken⟩, rfl,
    rpc_guard E fuel c log "sys" method params ⟨by decide, htoken⟩,
    rpc_guard E fuel c log "uci" method params ⟨by decide, htoken⟩,
    rpc_guard E fuel c log "fs" method params ⟨by decide, htoken⟩,
    rpc_log_first E fuel c log "auth" method params (by simp)⟩

/-- C1 at the test server, for a client that holds no token. -/
theorem rpc_unauthenticated_witness :
    SysRPC (mux (.response 200 (okBody "true") none)) 0
        ⟨testServer, testAuth, "", rpcID⟩ [] "hostname" none
      = ⟨some ("", some (.errorsNew "RPC client is not authenticated")),
          ⟨testServer, testAuth, "", rpcID⟩, []⟩ :=
  (rpc_unauthenticated (mux (.response 200 (okBody "true") none)) 0
    ⟨testServer, testAuth, "", rpcID⟩ [] "sys" "hostname" none rfl (by decide)).2.2.1

/-- C9: `url` is scheme, host, port suffix, the RPC path, the namespace and the
query: `https://` exactly when SSL is set, the port behind a colon exactly when
it is neither 0 nor 443, `?auth=` and the token exactly when a token is held. -/
theorem url_eq_specURL (c : Client) (uri : String) :
    c.url uri = specURL c.rpcServer.Hostname c.rpcServer.Port c.rpcServer.SSL c.token uri := by
  unfold Client.url specURL rpcURI
  cases hssl : c.rpcServer.SSL
  all_goals
    by_cases h0 : c.rpcServer.Port = 0 <;> by_cases h443 : c.rpcServer.Port = 443
      <;> by_cases ht : c.token = "" <;> simp [h0, h443, ht, String.append_assoc]

/-- C6: when the response `rpc` reads (the answer to its first request, or
more generally to the last request of a run that returns) has a success status
(at most 226, read without error), decodes to a `Response` and has a nil
`Error`, `rpc` returns `normalize` of the result and no error; `normalize` is
the string itself for a string and the compact encoding for any other value. -/
theorem rpc_result_normalized (E : Env) (fuel : Nat) (c : Client) (log : List Request)
    (library method : String) (params : Option (List String))
    (status : Nat) (body : String) (resp : Response)
    (hguard : ¬ (library ≠ "auth" ∧ c.token = ""))
    (hstatus : status ≤ 226)
    (hdec : jsonUnmarshal E.fl body = .ok resp) (herr : resp.Error = none) :
    (E.http log (firstRequest c library method params) = .response status body none →
        rpc E fuel c log library method params
          = ⟨some (normalize resp.Result, none), c,
              log ++ [firstRequest c library method params]⟩)
      ∧ (∀ out pre req, (rpc E fuel c log library method params).value = some out →
          (rpc E fuel c log library method params).log = pre ++ [req] →
          E.http pre req = .response status body none →
          out = (normalize resp.Result, none))
      ∧ (∀ s, normalize (.string s) = s)
      ∧ (∀ v, (∀ s, v ≠ .string s) → normalize v = jsonMarshal v) := by
  refine ⟨?_, ?_, fun _ => rfl, ?_⟩
  · intro hhttp
    have hcall := call_success E log _ _ status body hhttp hstatus
    rw [rpc_direct E fuel c log library method params hguard (by rw [hcall]; simp)
      (by rw [hcall]; simp), hcall, rpcResult_result E body resp hdec herr]
  · intro out pre req hout hlog hhttp
    obtain ⟨pre1, hlog1, hout1⟩ := rpc_value_last E fuel c log library method params hguard out hout
    rw [hlog1] at hlog
    obtain ⟨hpre, hreq⟩ := List.append_inj' hlog rfl
    have hreq1 : firstRequest c library method params = req := by simpa using hreq
    subst hpre
    have hcall := call_success E pre1 (c.url library)
      (marshalPayload ⟨c.id, method, params⟩) status body (by rw [← hreq1] at hhttp; exact hhttp)
      hstatus
    rw [hout1, hcall, rpcResult_result E body resp hdec herr]
  · intro v hv
    cases v with
    | string s => exact absurd rfl (hv s)
    | _ => rfl

/-- C6 at `TestResponseString`: the result "OpenWrt" of `sys`/`hostname`. -/
theorem rpc_result_normalized_witness :
    SysRPC (mux (.response 200 (okBody "\"OpenWrt\"") none)) 0 testClient [] "hostname" none
      = ⟨some ("OpenWrt", none), testClient, [firstRequest testClient "sys" "hostname" none]⟩ :=
  (rpc_result_normalized (mux (.response 200 (okBody "\"OpenWrt\"") none)) 0 testClient []
    "sys" "hostname" none 200 (okBody "\"OpenWrt\"") ⟨99, .string "OpenWrt", none⟩
    (by decide) (by decide) rfl rfl).1 rfl

/-- C8: when the response `rpc` reads has a success status, decodes to a
`Response` and has the string `e` as its `Error`, `rpc` returns the empty
result and an error whose message is exactly `e`, whatever the result field
holds. -/
theorem rpc_error_field (E : Env) (fuel : Nat) (c : Client) (log : List Request)
    (library method : String) (params : Option (List String))
    (status : Nat) (body : String) (resp : Response) (e : String)
    (hguard : ¬ (library ≠ "auth" ∧ c.token = ""))
    (hstatus : status ≤ 226)
    (hdec : jsonUnmarshal E.fl body = .ok resp) (herr : resp.Error = some e) :
    (E.http log (firstRequest c library method params) = .response status body none →
        rpc E fuel c log library method params
          = ⟨some ("", some (.errorsNew e)), c, log ++ [firstRequest c library method params]⟩)
      ∧ (∀ out pre req, (rpc E fuel c log library method params).value = some out →
          (rpc E fuel c log library method params).log = pre ++ [req] →
          E.http pre req = .response status body none →
          out = ("", some (.errorsNew e)))
      ∧ (GoError.errorsNew e).Error = e := by
  refine ⟨?_, ?_, rfl⟩
  · intro hhttp
    have hcall := call_success E log _ _ status body hhttp hstatus
    rw [rpc_direct E fuel c log library method params hguard (by rw [hcall]; simp)
      (by rw [hcall]; simp), hcall, rpcResult_error E body resp e hdec herr]
  · intro out pre req hout hlog hhttp
    obtain ⟨pre1, hlog1, hout1⟩ := rpc_value_last E fuel c log library method params hguard out hout
    rw [hlog1] at hlog
    obtain ⟨hpre, hreq⟩ := List.append_inj' hlog rfl
    have hreq1 : firstRequest c library method params = req := by simpa using hreq
    subst hpre
    have hcall := call_success E pre1 (c.url library)
      (marshalPayload ⟨c.id, method, params⟩) status body (by rw [← hreq1] at hhttp; exact hhttp)
      hstatus
    rw [hout1, hcall, rpcResult_error E body resp e hdec herr]

/-- C8 at `TestRPCError`: the body with the error "FakeError". -/
theorem rpc_error_field_witness :
    SysRPC (mux (.response 200 "\x7b\"id\":99,\"result\":null,\"error\":\"FakeError\"\x7d" none))
        0 testClient [] "test" none
      = ⟨some ("", some (.errorsNew "FakeError")), testClient,
          [firstRequest testClient "sys" "test" none]⟩ :=
  (rpc_error_field (mux (.response 200 "\x7b\"id\":99,\"result\":null,\"error\":\"FakeError\"\x7d" none))
    0 testClient [] "sys" "test" none 200
    "\x7b\"id\":99,\"result\":null,\"error\":\"FakeError\"\x7d" ⟨99, .null, some "FakeError"⟩
    "FakeError" (by decide) (by decide) rfl rfl).1 rfl

/-- C10: when the auth endpoint answers the login request with a success
status, a nil `Error` and a result that is not a string, `login` returns no
error and stores the compact encoding of the result as the token, and `New`
returns the client; for a null or absent result the token is "null", and every
later call of the client, in any namespace, passes the guard and is sent to the
URL of the namespace followed by `?auth=null`. -/
theorem login_accepts_nonstring (E : Env) (fuel : Nat) (c : Client) (log : List Request)
    (status : Nat) (body : String) (resp : Response)
    (hhttp : E.http log (firstRequest c "auth" "login" (some [c.auth.Username, c.auth.Password]))
      = .response status body none)
    (hstatus : status ≤ 226)
    (hdec : jsonUnmarshal E.fl body = .ok resp) (herr : resp.Error = none)
    (hresult : ∀ s, resp.Result ≠ .string s) :
    login E fuel c log
        = ⟨some none, { c with token := jsonMarshal resp.Result },
            log ++ [firstRequest c "auth" "login" (some [c.auth.Username, c.auth.Password])]⟩
      ∧ (∀ rpcServer auth, c = newClient rpcServer auth →
          New E fuel rpcServer auth log
            = ⟨some (some { c with token := jsonMarshal resp.Result }, none),
                { c with token := jsonMarshal resp.Result },
                log ++ [firstRequest c "auth" "login" (some [c.auth.Username, c.auth.Password])]⟩)
      ∧ (resp.Result = .null →
          jsonMarshal resp.Result = "null"
          ∧ ∀ (E1 : Env) (fuel1 : Nat) (log1 : List Request) (library method : String)
              (params : Option (List String)),
            ∃ rest, (rpc E1 fuel1 { c with token := jsonMarshal resp.Result } log1
                library method params).log
              = log1 ++ ⟨specURL c.rpcServer.Hostname c.rpcServer.Port c.rpcServer.SSL ""
                    library ++ "?auth=null",
                  marshalPayload ⟨c.id, method, params⟩⟩ :: rest) := by
  have hnorm : normalize resp.Result = jsonMarshal resp.Result := by
    cases hr : resp.Result with
    | string s => exact absurd hr (hresult s)
    | _ => rfl
  have hcall := call_success E log _ _ status body hhttp hstatus
  have hrpc : rpc E fuel c log "auth" "login" (some [c.auth.Username, c.auth.Password])
      = ⟨some (jsonMarshal resp.Result, none), c,
          log ++ [firstRequest c "auth" "login" (some [c.auth.Username, c.auth.Password])]⟩ := by
    rw [rpc_direct E fuel c log "auth" "login" _ (by simp) (by rw [hcall]; simp)
      (by rw [hcall]; simp), hcall, rpcResult_result E body resp hdec herr, hnorm]
  have hlogin := login_eq E fuel c log _ _ _ hrpc
  refine ⟨hlogin, ?_, ?_⟩
  · intro rpcServer auth hc
    have hnew : New E fuel rpcServer auth log
        = (match (login E fuel (newClient rpcServer auth) log).value with
           | none => ⟨none, (login E fuel (newClient rpcServer auth) log).client,
               (login E fuel (newClient rpcServer auth) log).log⟩
           | some (some err) =>
             ⟨some (none, some err), (login E fuel (newClient rpcServer auth) log).client,
               (login E fuel (newClient rpcServer auth) log).log⟩
           | some none =>
             ⟨some (some (login E fuel (newClient rpcServer auth) log).client, none),
               (login E fuel (newClient rpcServer auth) log).client,
               (login E fuel (newClient rpcServer auth) log).log⟩) := rfl
    rw [hnew, ← hc, hlogin]
  · intro hnull
    have htok : jsonMarshal resp.Result = "null" := by rw [hnull]; rfl
    refine ⟨htok, ?_⟩
    intro E1 fuel1 log1 library method params
    rw [htok]
    obtain ⟨rest, hrest⟩ := rpc_log_first E1 fuel1 { c with token := "null" } log1 library
      method params (by simp)
    exact ⟨rest, by
      rw [hrest, firstRequest, url_with_token c "null" library (by decide), String.append_assoc]
      rfl⟩

/-- C10 at a server that answers the login with `"result":null`, and at one
that leaves the result out: `New` returns a client whose token is "null". -/
theorem login_accepts_nonstring_witness :
    New nullAuthServer 0 testServer testAuth []
        = ⟨some (some { newClient testServer testAuth with token := "null" }, none),
            { newClient testServer testAuth with token := "null" },
            [⟨"http://127.0.0.1:8080/cgi-bin/luci/rpc/auth",
              "\x7b\"id\":99,\"method\":\"login\",\"params\":[\"root\",\"openwrt\"]\x7d"⟩]⟩
      ∧ New absentResultServer 0 testServer testAuth []
        = ⟨some (some { newClient testServer testAuth with token := "null" }, none),
            { newClient testServer testAuth with token := "null" },
            [⟨"http://127.0.0.1:8080/cgi-bin/luci/rpc/auth",
              "\x7b\"id\":99,\"method\":\"login\",\"params\":[\"root\",\"openwrt\"]\x7d"⟩]⟩ :=
  ⟨(login_accepts_nonstring nullAuthServer 0 (newClient testServer testAuth) [] 200
      (okBody "null") ⟨99, .null, none⟩ rfl (by decide) rfl rfl
      (fun _ h => Value.noConfusion h)).2.1 testServer testAuth rfl,
    (login_accepts_nonstring absentResultServer 0 (newClient testServer testAuth) [] 200
      "\x7b\"id\":99,\"error\":null\x7d" ⟨99, .null, none⟩ rfl (by decide) rfl rfl
      (fun _ h => Value.noConfusion h)).2.1 testServer testAuth rfl⟩

/-! ### The re-login of `rpc` inside `login`

The retry of lines 167-172 applies to every namespace, `auth` included: when
the login request itself is answered with 401 or 403, `rpc` calls `login`,
which calls `rpc`, which sends the login request again. -/

/-- C2, at a server that answers every request (the login request too) with
403: `SysRPC` on a client that holds a token does not return.  Whatever the
bound on nested re-logins, the run reaches it, having sent one request per
level: the re-login of the first call re-logs in itself, without end. -/
theorem relogin_unbounded_on_forbidden (fuel : Nat) :
    (SysRPC (statusServer 403) fuel testClient [] "forbidden" none).value = none
      ∧ (SysRPC (statusServer 403) fuel testClient [] "forbidden" none).log.length
        = fuel + 1 := by
  have h := rpc_never_returns (statusServer 403) (fun _ _ _ => Or.inr rfl) fuel testClient []
    "sys" "forbidden" none (by decide)
  simpa [SysRPC] using h

/-- C4, at a server that answers every request with 401: `New` does not
return.  Whatever the bound on nested re-logins, the run reaches it, having
sent one login request per level. -/
theorem new_unbounded_on_unauthorized (fuel : Nat) (rpcServer : RpcServer) (auth : Auth) :
    (New (statusServer 401) fuel rpcServer auth []).value = none
      ∧ (New (statusServer 401) fuel rpcServer auth []).log.length = fuel + 1 := by
  obtain ⟨hv, hl⟩ := rpc_never_returns (statusServer 401) (fun _ _ _ => Or.inl rfl) fuel
    (newClient rpcServer auth) [] "auth" "login"
    (some [(newClient rpcServer auth).auth.Username, (newClient rpcServer auth).auth.Password])
    (by simp)
  have hlv : (login (statusServer 401) fuel (newClient rpcServer auth) []).value = none := by
    unfold login loginWith
    simp only [hv]
  have hll : (login (statusServer 401) fuel (newClient rpcServer auth) []).log
      = (rpc (statusServer 401) fuel (newClient rpcServer auth) [] "auth" "login"
          (some [(newClient rpcServer auth).auth.Username,
            (newClient rpcServer auth).auth.Password])).log := loginWith_log _ _ _
  have hnew : New (statusServer 401) fuel rpcServer auth []
      = (match (login (statusServer 401) fuel (newClient rpcServer auth) []).value with
         | none => ⟨none, (login (statusServer 401) fuel (newClient rpcServer auth) []).client,
             (login (statusServer 401) fuel (newClient rpcServer auth) []).log⟩
         | some (some err) =>
           ⟨some (none, some err),
             (login (statusServer 401) fuel (newClient rpcServer auth) []).client,
             (login (statusServer 401) fuel (newClient rpcServer auth) []).log⟩
         | some none =>
           ⟨some (some (login (statusServer 401) fuel (newClient rpcServer auth) []).client,
               none),
             (login (statusServer 401) fuel (newClient rpcServer auth) []).client,
             (login (statusServer 401) fuel (newClient rpcServer auth) []).log⟩) := rfl
  rw [hnew]
  simp only [hlv, hll, hl]
  simp

/-- C3, at `expiredSessionServer`: the call is refused with 403, the re-login
succeeds and stores the token "new", and the retried request goes to the URL
computed before the login, with `auth=old`; it is refused again and `SysRPC`
returns `ErrHttpForbidden`, although the client now holds a token the server
accepts. -/
theorem retry_uses_stale_token (fuel : Nat) :
    SysRPC expiredSessionServer (fuel + 1) expiredClient [] "hostname" none
      = ⟨some ("", some .ErrHttpForbidden), { expiredClient with token := "new" },
          [⟨"http://127.0.0.1:8080/cgi-bin/luci/rpc/sys?auth=old",
              "\x7b\"id\":99,\"method\":\"hostname\",\"params\":null\x7d"⟩,
            ⟨"http://127.0.0.1:8080/cgi-bin/luci/rpc/auth?auth=old",
              "\x7b\"id\":99,\"method\":\"login\",\"params\":[\"root\",\"openwrt\"]\x7d"⟩,
            ⟨"http://127.0.0.1:8080/cgi-bin/luci/rpc/sys?auth=old",
              "\x7b\"id\":99,\"method\":\"hostname\",\"params\":null\x7d"⟩]⟩
      ∧ SysRPC expiredSessionServer 0 { expiredClient with token := "new" } [] "hostname" none
        = ⟨some ("OpenWrt", none), { expiredClient with token := "new" },
            [⟨"http://127.0.0.1:8080/cgi-bin/luci/rpc/sys?auth=new",
              "\x7b\"id\":99,\"method\":\"hostname\",\"params\":null\x7d"⟩]⟩ := by
  refine ⟨?_, rfl⟩
  have hrpc : rpc expiredSessionServer fuel expiredClient
      ([] ++ [firstRequest expiredClient "sys" "hostname" none]) "auth" "login"
      (some [expiredClient.auth.Username, expiredClient.auth.Password])
      = ⟨some ("new", none), expiredClient,
          [firstRequest expiredClient "sys" "hostname" none,
            firstRequest expiredClient "auth" "login" (some ["root", "openwrt"])]⟩ := by
    rw [rpc_direct expiredSessionServer fuel expiredClient _ "auth" "login" _ (by decide)
      (by decide) (by decide)]
    rfl
  unfold SysRPC
  rw [rpc_retry expiredSessionServer fuel expiredClient [] "sys" "hostname" none (by decide)
    (Or.inr rfl), login_eq _ _ _ _ _ _ _ hrpc]
  rfl

/-- C5, at `flakyAuthServer`: `login` on a client without a token returns
`ErrHttpUnauthorized`, and the client it leaves holds the token "T": the
re-login nested in the failed login stored it. -/
theorem failed_login_changes_token (fuel : Nat) :
    login flakyAuthServer (fuel + 1) (newClient testServer testAuth) []
      = ⟨some (some .ErrHttpUnauthorized), { newClient testServer testAuth with token := "T" },
          [⟨"http://127.0.0.1:8080/cgi-bin/luci/rpc/auth",
              "\x7b\"id\":99,\"method\":\"login\",\"params\":[\"root\",\"openwrt\"]\x7d"⟩,
            ⟨"http://127.0.0.1:8080/cgi-bin/luci/rpc/auth",
              "\x7b\"id\":99,\"method\":\"login\",\"params\":[\"root\",\"openwrt\"]\x7d"⟩,
            ⟨"http://127.0.0.1:8080/cgi-bin/luci/rpc/auth",
              "\x7b\"id\":99,\"method\":\"login\",\"params\":[\"root\",\"openwrt\"]\x7d"⟩]⟩
      ∧ (newClient testServer testAuth).token = ""
      ∧ ({ newClient testServer testAuth with token := "T" } : Client).token
        ≠ (newClient testServer testAuth).token := by
  refine ⟨?_, rfl, by decide⟩
  have hrpc : rpc flakyAuthServer fuel (newClient testServer testAuth)
      ([] ++ [firstRequest (newClient testServer testAuth) "auth" "login"
        (some [(newClient testServer testAuth).auth.Username,
          (newClient testServer testAuth).auth.Password])]) "auth" "login"
      (some [(newClient testServer testAuth).auth.Username,
        (newClient testServer testAuth).auth.Password])
      = ⟨some ("T", none), newClient testServer testAuth,
          [firstRequest (newClient testServer testAuth) "auth" "login" (some ["root", "openwrt"]),
            firstRequest (newClient testServer testAuth) "auth" "login"
              (some ["root", "openwrt"])]⟩ := by
    rw [rpc_direct flakyAuthServer fuel (newClient testServer testAuth) _ "auth" "login" _
      (by decide) (by decide) (by decide)]
    rfl
  have hretry : rpc flakyAuthServer (fuel + 1) (newClient testServer testAuth) [] "auth" "login"
      (some [(newClient testServer testAuth).auth.Username,
        (newClient testServer testAuth).auth.Password])
      = ⟨some ("", some .ErrHttpUnauthorized),
          { newClient testServer testAuth with token := "T" },
          [firstRequest (newClient testServer testAuth) "auth" "login" (some ["root", "openwrt"]),
            firstRequest (newClient testServer testAuth) "auth" "login" (some ["root", "openwrt"]),
            firstRequest (newClient testServer testAuth) "auth" "login"
              (some ["root", "openwrt"])]⟩ := by
    rw [rpc_retry flakyAuthServer fuel (newClient testServer testAuth) [] "auth" "login" _
      (by decide) (Or.inl rfl), login_eq _ _ _ _ _ _ _ hrpc]
    rfl
  rw [login_eq_error _ _ _ _ _ _ _ _ hretry]
  rfl

/-! ### The round trip of a result -/

/-- C7 as stated fails: for the result `{"b":1,"a":2}`, an object written as
compact JSON text, the call returns `{"a":2,"b":1}`: the encoder writes the
members of a map in key order, not in the order of the document.  Likewise a
repeated key keeps its last value only (`{"a":1,"a":2}` gives `{"a":2}`), and a
string inside an array comes back in the escapes of the encoder (`["<"]` gives
`["\u003c"]`, `["\u0041"]` gives `["A"]`). -/
theorem roundtrip_fails_on_key_order :
    ((SysRPC (mux (.response 200 (okBody "\x7b\"b\":1,\"a\":2\x7d") none)) 0 testClient []
          "getObject" none).value
        = some ("\x7b\"a\":2,\"b\":1\x7d", none)
      ∧ "\x7b\"a\":2,\"b\":1\x7d" ≠ "\x7b\"b\":1,\"a\":2\x7d")
    ∧ (SysRPC (mux (.response 200 (okBody "\x7b\"a\":1,\"a\":2\x7d") none)) 0 testClient []
          "getObject" none).value
        = some ("\x7b\"a\":2\x7d", none)
    ∧ (SysRPC (mux (.response 200 (okBody "[\"<\"]") none)) 0 testClient []
          "getArray" none).value
        = some ("[\"\\u003c\"]", none)
    ∧ (SysRPC (mux (.response 200 (okBody "[\"\\u0041\"]") none)) 0 testClient []
          "getArray" none).value
        = some ("[\"A\"]", none) :=
  ⟨⟨rfl, by decide⟩, rfl, rfl, rfl⟩

/-- C7 (amended): for every value `v` other than a string that is written the
way the encoder writes it (the keys of every object increase strictly, numbers
are integer literals of magnitude at most `2^53`, strings and keys hold only
characters the encoder does not escape) and nests less than `maxNestingDepth`
deep, when the first request is answered with status 200 and the body
`{"id":99,"result":r,"error":null}` for the text `r` of `v`, `rpc` returns
exactly `r` and no error. -/
theorem roundtrip_plain_result (E : Env) (fuel : Nat) (c : Client) (log : List Request)
    (library method : String) (params : Option (List String)) (v : Value)
    (hguard : ¬ (library ≠ "auth" ∧ c.token = ""))
    (hvalue : ∀ s, v ≠ .string s)
    (hplain : v.plain = true) (hdepth : v.depth < maxNestingDepth)
    (hhttp : E.http log (firstRequest c library method params)
      = .response 200 (okBody (jsonMarshal v)) none) :
    rpc E fuel c log library method params
      = ⟨some (jsonMarshal v, none), c, log ++ [firstRequest c library method params]⟩ := by
  have hp : v.verbatim = true ∧ v.ordered = true := by
    simpa only [Value.plain, Bool.and_eq_true] using hplain
  have hdec := jsonUnmarshal_okBody E.fl v hp.1 hp.2 hdepth
  have hcall := call_success E log _ _ 200 (okBody (jsonMarshal v)) hhttp (by decide)
  have hnorm : normalize v = jsonMarshal v := by
    cases v with
    | string s => exact absurd rfl (hvalue s)
    | _ => rfl
  rw [rpc_direct E fuel c log library method params hguard (by rw [hcall]; simp)
    (by rw [hcall]; simp), hcall, rpcResult_result E _ ⟨99, v, none⟩ hdec rfl, hnorm]

/-- C7 (amended) at the results of the test suite: `48650`, `true`, the array
of strings, the array of objects and the object. -/
theorem roundtrip_plain_result_witness :
    SysRPC (mux (.response 200 (okBody "48650") none)) 0 testClient [] "uptime" none
        = ⟨some ("48650", none), testClient, [firstRequest testClient "sys" "uptime" none]⟩
      ∧ SysRPC (mux (.response 200 (okBody "true") none)) 0 testClient [] "testBool" none
        = ⟨some ("true", none), testClient, [firstRequest testClient "sys" "testBool" none]⟩
      ∧ SysRPC (mux (.response 200 (okBody "[\"lo\",\"eth0\",\"eth1\",\"br-lan\"]") none)) 0
          testClient [] "net.devices" none
        = ⟨some ("[\"lo\",\"eth0\",\"eth1\",\"br-lan\"]", none), testClient,
            [firstRequest testClient "sys" "net.devices" none]⟩
      ∧ SysRPC (mux (.response 200
            (okBody "[\x7b\"PID\":\"1\",\"PPID\":0\x7d,\x7b\"PID\":\"100\",\"PPID\":1\x7d]") none))
          0 testClient [] "net.devices" none
        = ⟨some ("[\x7b\"PID\":\"1\",\"PPID\":0\x7d,\x7b\"PID\":\"100\",\"PPID\":1\x7d]", none),
            testClient, [firstRequest testClient "sys" "net.devices" none]⟩
      ∧ SysRPC (mux (.response 200
            (okBody "\x7b\"b\":true,\"m\":[1,2,3],\"n\":99,\"s\":\"String\"\x7d") none))
          0 testClient [] "getObject" none
        = ⟨some ("\x7b\"b\":true,\"m\":[1,2,3],\"n\":99,\"s\":\"String\"\x7d", none),
            testClient, [firstRequest testClient "sys" "getObject" none]⟩ :=
  ⟨roundtrip_plain_result (mux (.response 200 (okBody "48650") none)) 0 testClient [] "sys"
      "uptime" none (.number "48650") (by decide) (fun _ h => Value.noConfusion h) rfl
      (by decide) rfl,
    roundtrip_plain_result (mux (.response 200 (okBody "true") none)) 0 testClient [] "sys"
      "testBool" none (.bool true) (by decide) (fun _ h => Value.noConfusion h) rfl
      (by decide) rfl,
    roundtrip_plain_result
      (mux (.response 200 (okBody "[\"lo\",\"eth0\",\"eth1\",\"br-lan\"]") none)) 0 testClient []
      "sys" "net.devices" none devicesResult (by decide) (fun _ h => Value.noConfusion h) rfl
      (by decide) rfl,
    roundtrip_plain_result
      (mux (.response 200
        (okBody "[\x7b\"PID\":\"1\",\"PPID\":0\x7d,\x7b\"PID\":\"100\",\"PPID\":1\x7d]") none))
      0 testClient [] "sys" "net.devices" none processesResult (by decide)
      (fun _ h => Value.noConfusion h) rfl (by decide) rfl,
    roundtrip_plain_result
      (mux (.response 200
        (okBody "\x7b\"b\":true,\"m\":[1,2,3],\"n\":99,\"s\":\"String\"\x7d") none))
      0 testClient [] "sys" "getObject" none objectResult (by decide)
      (fun _ h => Value.noConfusion h) rfl (by decide) rfl⟩

end OpenwrtRpc
